import Mathlib

/-!
Verification of the larnt line-art rendering core.

The Rust sources under `src/` are embedded shallowly over `ℚ`: finite `f64`
values and their arithmetic are modelled by exact rational arithmetic, and
the square roots and trigonometric functions the code obtains from `f64`
intrinsics are passed to each embedded function as explicit value arguments,
so every definition stays computable and can be evaluated on concrete inputs.
Fallible code (Rust panics) is modelled by `Option`, with `none` for a panic.
-/

set_option autoImplicit false

namespace Larnt

/-- Modelled from the spec: `Vector` (vector.rs is not under src/) — an ordered
triple of coordinates (§3), with componentwise add/sub/mul/div, scalar scale,
dot, cross, per-component min/max and `min_axis`. -/
structure Vec where
  x : ℚ
  y : ℚ
  z : ℚ
deriving DecidableEq, Repr

namespace Vec

def add (a b : Vec) : Vec := ⟨a.x + b.x, a.y + b.y, a.z + b.z⟩

def sub (a b : Vec) : Vec := ⟨a.x - b.x, a.y - b.y, a.z - b.z⟩

def mulScalar (a : Vec) (s : ℚ) : Vec := ⟨a.x * s, a.y * s, a.z * s⟩

/-- Componentwise division (`Vector::div`).  Rational division is total with
`q / 0 = 0`; theorems that depend on a quotient place nonzero hypotheses on the
divisor so that the model agrees with exact real `f64` semantics. -/
def divComp (a b : Vec) : Vec := ⟨a.x / b.x, a.y / b.y, a.z / b.z⟩

def dot (a b : Vec) : ℚ := a.x * b.x + a.y * b.y + a.z * b.z

def cross (a b : Vec) : Vec :=
  ⟨a.y * b.z - a.z * b.y, a.z * b.x - a.x * b.z, a.x * b.y - a.y * b.x⟩

def lengthSquared (a : Vec) : ℚ := a.dot a

def distanceSquared (a b : Vec) : ℚ := (a.sub b).lengthSquared

def minComp (a b : Vec) : Vec := ⟨min a.x b.x, min a.y b.y, min a.z b.z⟩

def maxComp (a b : Vec) : Vec := ⟨max a.x b.x, max a.y b.y, max a.z b.z⟩

/-- Modelled from the spec: `min_axis` — the unit vector along the axis of the
smallest absolute component. -/
def minAxis (a : Vec) : Vec :=
  if |a.x| ≤ |a.y| ∧ |a.x| ≤ |a.z| then ⟨1, 0, 0⟩
  else if |a.y| ≤ |a.z| then ⟨0, 1, 0⟩
  else ⟨0, 0, 1⟩

/-- Modelled from the spec: `normalize`, dividing by the length.  The length is
`sq` applied to the squared length, where `sq` is the square-root valuation the
caller fixes (see the module docstring). -/
def normalizeWith (sq : ℚ → ℚ) (a : Vec) : Vec := a.mulScalar (1 / sq a.lengthSquared)

end Vec

/-- Modelled from the spec: `Ray` — origin plus direction, with
`position(t) = origin + t·direction`. -/
structure Ray where
  origin : Vec
  direction : Vec
deriving DecidableEq, Repr

def Ray.position (r : Ray) (t : ℚ) : Vec := r.origin.add (r.direction.mulScalar t)

/-- Modelled from the spec: `Hit` (hit.rs is not under src/) — either `NoHit`
(`none`) or a finite ray parameter (`some t`). -/
abbrev Hit := Option ℚ

/-- `Path` from src/src/path.rs — a polyline as a sequence of points. -/
abbrev Path := List Vec

/-! ## Paths::filter (src/src/path.rs) -/

/-- The loop body of `path_filter` (src/src/path.rs lines 432-452): `cur` is the
`current_path` accumulator; a rejected vertex flushes it (kept only when its
length exceeds 1) and starts a new one, and the final flush keeps the same
length condition. -/
def pathFilterGo (f : Vec → Option Vec) : List Vec → List Vec → List (List Vec)
  | cur, [] => if 1 < cur.length then [cur] else []
  | cur, v :: rest =>
    match f v with
    | some nv => pathFilterGo f (cur ++ [nv]) rest
    | none => (if 1 < cur.length then [cur] else []) ++ pathFilterGo f [] rest

/-- `path_filter` from src/src/path.rs lines 432-452. -/
def path_filter (f : Vec → Option Vec) (path : List Vec) : List (List Vec) :=
  pathFilterGo f [] path

/-- `Paths::filter` from src/src/path.rs lines 130-136: apply `path_filter` to
every polyline and concatenate the results in order. -/
def pathsFilter (f : Vec → Option Vec) (paths : List Path) : List Path :=
  paths.flatMap (path_filter f)

/-- Specification-side definition, following the words of the spec (§4.6): map
the filter over the path and split at every rejected vertex; the chunks are the
maximal runs of consecutive accepted (and transformed) vertices in their
original order. -/
def acceptedRuns (f : Vec → Option Vec) (path : List Vec) : List (List Vec) :=
  ((path.map f).splitOnP (fun o => o.isNone)).map (fun run => run.filterMap id)

theorem acceptedRuns_nil (f : Vec → Option Vec) : acceptedRuns f [] = [[]] := rfl

theorem acceptedRuns_cons_some (f : Vec → Option Vec) (v : Vec) (nv : Vec)
    (rest : List Vec) (h : f v = some nv) :
    acceptedRuns f (v :: rest) = (acceptedRuns f rest).modifyHead (nv :: ·) := by
  unfold acceptedRuns
  simp only [List.map_cons, h, List.splitOnP_cons, Option.isNone_some, Bool.false_eq_true,
    if_false]
  cases hrest : (rest.map f).splitOnP (fun o => o.isNone) with
  | nil => exact absurd hrest (List.splitOnP_ne_nil _ _)
  | cons hd tl => simp [List.modifyHead]

theorem acceptedRuns_cons_none (f : Vec → Option Vec) (v : Vec)
    (rest : List Vec) (h : f v = none) :
    acceptedRuns f (v :: rest) = [] :: acceptedRuns f rest := by
  unfold acceptedRuns
  simp [h, List.splitOnP_cons]

theorem acceptedRuns_ne_nil (f : Vec → Option Vec) (path : List Vec) :
    acceptedRuns f path ≠ [] := by
  unfold acceptedRuns
  intro hc
  exact List.splitOnP_ne_nil _ _ (by simpa using hc)

theorem filterLong_cons (cur : List Vec) (tl : List (List Vec)) :
    (cur :: tl).filter (fun r => decide (2 ≤ r.length)) =
      (if 1 < cur.length then [cur] else []) ++
        tl.filter (fun r => decide (2 ≤ r.length)) := by
  by_cases h : 1 < cur.length
  · have h2 : 2 ≤ cur.length := h
    simp [List.filter_cons, h2, h]
  · have h2 : ¬2 ≤ cur.length := h
    simp [List.filter_cons, h2, h]

theorem pathFilterGo_cons_some (f : Vec → Option Vec) (cur : List Vec) (v nv : Vec)
    (rest : List Vec) (h : f v = some nv) :
    pathFilterGo f cur (v :: rest) = pathFilterGo f (cur ++ [nv]) rest := by
  rw [pathFilterGo.eq_def]
  dsimp only
  rw [h]

theorem pathFilterGo_cons_none (f : Vec → Option Vec) (cur : List Vec) (v : Vec)
    (rest : List Vec) (h : f v = none) :
    pathFilterGo f cur (v :: rest) =
      (if 1 < cur.length then [cur] else []) ++ pathFilterGo f [] rest := by
  rw [pathFilterGo.eq_def]
  dsimp only
  rw [h]

theorem pathFilterGo_eq_filter_runs (f : Vec → Option Vec) (path : List Vec) :
    ∀ cur : List Vec,
      pathFilterGo f cur path =
        ((acceptedRuns f path).modifyHead (cur ++ ·)).filter
          (fun r => decide (2 ≤ r.length)) := by
  induction path with
  | nil =>
    intro cur
    rw [acceptedRuns_nil]
    show (if 1 < cur.length then [cur] else []) = _
    simp only [List.modifyHead, List.append_nil, filterLong_cons, List.filter_nil]
  | cons v rest ih =>
    intro cur
    cases hv : f v with
    | some nv =>
      rw [pathFilterGo_cons_some f cur v nv rest hv, ih (cur ++ [nv]),
        acceptedRuns_cons_some f v nv rest hv, List.modifyHead_modifyHead]
      congr 2
      funext r
      simp [List.append_assoc]
    | none =>
      rw [pathFilterGo_cons_none f cur v rest hv, ih [],
        acceptedRuns_cons_none f v rest hv]
      cases hrest : acceptedRuns f rest with
      | nil => exact absurd hrest (acceptedRuns_ne_nil f rest)
      | cons hd tl =>
        simp [List.modifyHead, filterLong_cons]

/-- **C6**: for every path and every filter, `path_filter` (and hence
`Paths::filter`) splits the path at each rejected vertex and emits exactly the
maximal runs of consecutive accepted, transformed vertices, in their original
order, keeping only runs of length at least 2. -/
theorem path_filter_emits_maximal_long_runs (f : Vec → Option Vec) :
    (∀ path : List Vec,
        path_filter f path =
          (acceptedRuns f path).filter (fun r => decide (2 ≤ r.length))) ∧
    (∀ paths : List Path,
        pathsFilter f paths =
          paths.flatMap (fun p =>
            (acceptedRuns f p).filter (fun r => decide (2 ≤ r.length)))) ∧
    (∀ path : List Vec, ∀ r ∈ path_filter f path, 2 ≤ r.length) := by
  have hmain : ∀ path : List Vec,
      path_filter f path =
        (acceptedRuns f path).filter (fun r => decide (2 ≤ r.length)) := by
    intro path
    have h := pathFilterGo_eq_filter_runs f path []
    cases hp : acceptedRuns f path with
    | nil => exact absurd hp (acceptedRuns_ne_nil f path)
    | cons hd tl =>
      simpa [path_filter, hp, List.modifyHead] using h
  refine ⟨hmain, ?_, ?_⟩
  · intro paths
    unfold pathsFilter
    congr 1
    funext p
    exact hmain p
  · intro path r hr
    rw [hmain] at hr
    have := List.of_mem_filter hr
    simpa using this

/-! ## Intersect for Sphere, Cube, Cylinder (C1) -/

/-- `SphereTexture` from src/src/sphere.rs. -/
inductive SphereTextureQ where
  | latLng
  | randomEquators (seed : Nat)
  | randomFuzz (seed : Nat)
  | randomCircles (seed : Nat)
deriving DecidableEq, Repr

/-- `Sphere` from src/src/sphere.rs (the cached bounding box `bx`, derived from
`center` and `radius` by `Sphere::new`, is omitted; no claim reads it). -/
structure Sphere where
  center : Vec
  radius : ℚ
  texture : SphereTextureQ
deriving DecidableEq, Repr

/-- The value `b = to·direction` computed by `Sphere::intersect`
(src/src/sphere.rs line 111). -/
def sphereB (s : Sphere) (r : Ray) : ℚ := (r.origin.sub s.center).dot r.direction

/-- The value `c = to·to − radius²` computed by `Sphere::intersect`
(src/src/sphere.rs line 112). -/
def sphereC (s : Sphere) (r : Ray) : ℚ :=
  (r.origin.sub s.center).dot (r.origin.sub s.center) - s.radius * s.radius

/-- The discriminant `d = b·b − c` of `Sphere::intersect`
(src/src/sphere.rs line 113). -/
def sphereDisc (s : Sphere) (r : Ray) : ℚ := sphereB s r * sphereB s r - sphereC s r

/-- `Sphere::intersect` from src/src/sphere.rs lines 108-127.  `sd` stands for
the `f64` value `d.sqrt()`; theorems constrain it by `sd·sd = d` and `0 ≤ sd`.
Note the threshold in this function is `1e-2`, not the spec's `1e-3`. -/
def sphereIntersect (s : Sphere) (r : Ray) (sd : ℚ) : Hit :=
  let b := sphereB s r
  let d := sphereDisc s r
  if 0 < d then
    let t1 := -b - sd
    if 1/100 < t1 then some t1
    else
      let t2 := -b + sd
      if 1/100 < t2 then some t2 else none
  else none

/-- `CubeTexture` from src/src/cube.rs. -/
inductive CubeTextureQ where
  | vanilla
  | striped (stripes : Nat)
deriving DecidableEq, Repr

/-- `Cube` from src/src/cube.rs (cached `bx` omitted as for `Sphere`). -/
structure Cube where
  min : Vec
  max : Vec
  texture : CubeTextureQ
deriving DecidableEq, Repr

/-- `Cube::contains` from src/src/cube.rs lines 85-96. -/
def cubeContains (c : Cube) (v : Vec) (f : ℚ) : Bool :=
  if v.x < c.min.x - f ∨ v.x > c.max.x + f then false
  else if v.y < c.min.y - f ∨ v.y > c.max.y + f then false
  else if v.z < c.min.z - f ∨ v.z > c.max.z + f then false
  else true

/-- The slab parameter `t0` of `Cube::intersect` (src/src/cube.rs line 102). -/
def cubeT0 (c : Cube) (r : Ray) : ℚ :=
  let n := (c.min.sub r.origin).divComp r.direction
  let f := (c.max.sub r.origin).divComp r.direction
  let n2 := n.minComp f
  max (max n2.x n2.y) n2.z

/-- The slab parameter `t1` of `Cube::intersect` (src/src/cube.rs line 103). -/
def cubeT1 (c : Cube) (r : Ray) : ℚ :=
  let n := (c.min.sub r.origin).divComp r.direction
  let f := (c.max.sub r.origin).divComp r.direction
  let f2 := n.maxComp f
  min (min f2.x f2.y) f2.z

/-- `Cube::intersect` from src/src/cube.rs lines 98-112 (slab method; the two
divisions are componentwise, so the model is faithful for rays whose direction
has no zero component — theorems carry those hypotheses). -/
def cubeIntersect (c : Cube) (r : Ray) : Hit :=
  let t0 := cubeT0 c r
  let t1 := cubeT1 c r
  if t0 < 1/1000 ∧ 1/1000 < t1 then some t1
  else if 1/1000 ≤ t0 ∧ t0 < t1 then some t0
  else none

/-- `CylinderTexture` from src/src/cylinder.rs. -/
inductive CylinderTextureQ where
  | outline
  | striped (num : Nat)
deriving DecidableEq, Repr

/-- `Cylinder` from src/src/cylinder.rs. -/
structure Cylinder where
  radius : ℚ
  z0 : ℚ
  z1 : ℚ
  texture : CylinderTextureQ
deriving DecidableEq, Repr

/-- The quadratic coefficient `a = dx² + dy²` of `Cylinder::intersect`
(src/src/cylinder.rs line 186). -/
def cylinderA (r : Ray) : ℚ := r.direction.x * r.direction.x + r.direction.y * r.direction.y

/-- The coefficient `b` of `Cylinder::intersect` (src/src/cylinder.rs line 187). -/
def cylinderB (r : Ray) : ℚ :=
  2 * r.origin.x * r.direction.x + 2 * r.origin.y * r.direction.y

/-- The coefficient `c` of `Cylinder::intersect` (src/src/cylinder.rs line 188). -/
def cylinderC (cy : Cylinder) (r : Ray) : ℚ :=
  r.origin.x * r.origin.x + r.origin.y * r.origin.y - cy.radius * cy.radius

/-- The discriminant `q = b² − 4ac` of `Cylinder::intersect`
(src/src/cylinder.rs line 189). -/
def cylinderQ (cy : Cylinder) (r : Ray) : ℚ :=
  cylinderB r * cylinderB r - 4 * cylinderA r * cylinderC cy r

/-- `Cylinder::intersect` from src/src/cylinder.rs lines 182-213.  `s` stands
for `q.sqrt()`; theorems constrain it by `s·s = q` and `0 ≤ s`.  Only the
lateral surface is tested, `z` strictly within `(z0, z1)`, and the threshold is
`1e-6`. -/
def cylinderIntersect (cy : Cylinder) (ray : Ray) (s : ℚ) : Hit :=
  let a := cylinderA ray
  let b := cylinderB ray
  let q := cylinderQ cy ray
  if q < 0 then none
  else
    let u0 := (-b + s) / (2 * a)
    let u1 := (-b - s) / (2 * a)
    let t0 := if u0 > u1 then u1 else u0
    let t1 := if u0 > u1 then u0 else u1
    let z0 := ray.origin.z + t0 * ray.direction.z
    let z1 := ray.origin.z + t1 * ray.direction.z
    if 1/1000000 < t0 ∧ cy.z0 < z0 ∧ z0 < cy.z1 then some t0
    else if 1/1000000 < t1 ∧ cy.z0 < z1 ∧ z1 < cy.z1 then some t1
    else none

/-- **C1, counterexample**: both halves of the claim fail on the code.  The
unit cube strictly contains the origin `(1023/1024, 1/4, 1/4)` of a ray with
direction `(2,1,1)`, yet `Cube::intersect` returns `NoHit`, because the exit
parameter `1/2048` does not exceed the `1e-3` threshold.  And a cylinder of
radius 1 hit from the interior point `(2047/2048, 0, 0)` along `(1,0,0)`
returns the finite parameter `1/2048 < 1e-3` (its threshold is `1e-6`), so not
every finite returned `t` exceeds `≈ 1e-3`; the passed square root `2` is exact
(`2·2 = q` and `0 ≤ 2`). -/
theorem intersect_tmin_counterexample :
    (cubeContains ⟨⟨0, 0, 0⟩, ⟨1, 1, 1⟩, CubeTextureQ.vanilla⟩ ⟨1023/1024, 1/4, 1/4⟩ 0 = true ∧
      cubeIntersect ⟨⟨0, 0, 0⟩, ⟨1, 1, 1⟩, CubeTextureQ.vanilla⟩
        ⟨⟨1023/1024, 1/4, 1/4⟩, ⟨2, 1, 1⟩⟩ = none) ∧
    ((2 : ℚ) * 2 = cylinderQ ⟨1, -1, 1, CylinderTextureQ.outline⟩
        ⟨⟨2047/2048, 0, 0⟩, ⟨1, 0, 0⟩⟩ ∧
      cylinderIntersect ⟨1, -1, 1, CylinderTextureQ.outline⟩
        ⟨⟨2047/2048, 0, 0⟩, ⟨1, 0, 0⟩⟩ 2 = some (1/2048) ∧
      (1/2048 : ℚ) < 1/1000) := by
  refine ⟨⟨?_, ?_⟩, ?_, ?_, ?_⟩
  · norm_num [cubeContains]
  · norm_num [cubeIntersect, cubeT0, cubeT1, Vec.sub, Vec.divComp, Vec.minComp, Vec.maxComp]
  · norm_num [cylinderQ, cylinderA, cylinderB, cylinderC]
  · norm_num [cylinderIntersect, cylinderQ, cylinderA, cylinderB, cylinderC]
  · norm_num

theorem sphere_root_iff (s : Sphere) (r : Ray)
    (hunit : r.direction.dot r.direction = 1) (t : ℚ) :
    (r.position t).distanceSquared s.center = s.radius * s.radius ↔
      t * t + 2 * sphereB s r * t + sphereC s r = 0 := by
  have key : (r.position t).distanceSquared s.center
      = t * t * (r.direction.dot r.direction) + 2 * sphereB s r * t +
        ((r.origin.sub s.center).dot (r.origin.sub s.center)) := by
    simp only [Ray.position, Vec.distanceSquared, Vec.lengthSquared, Vec.dot,
      Vec.add, Vec.sub, Vec.mulScalar, sphereB]
    ring
  rw [key, hunit, sphereC]
  constructor <;> intro h <;> linarith

theorem quad_roots (b c sd t : ℚ) (hd : sd * sd = b * b - c)
    (h : t * t + 2 * b * t + c = 0) : t = -b - sd ∨ t = -b + sd := by
  have h2 : (t + b - sd) * (t + b + sd) = 0 := by nlinarith [h, hd]
  rcases mul_eq_zero.mp h2 with h3 | h3
  · right; linarith
  · left; linarith

theorem quad_roots_back (b c sd t : ℚ) (hd : sd * sd = b * b - c)
    (h : t = -b - sd ∨ t = -b + sd) : t * t + 2 * b * t + c = 0 := by
  rcases h with rfl | rfl <;> nlinarith [hd]

/-- The per-axis slab entry value `min(n, f)` of the cube slab method. -/
def slabLo (minq maxq oq dq : ℚ) : ℚ := min ((minq - oq) / dq) ((maxq - oq) / dq)

/-- The per-axis slab exit value `max(n, f)` of the cube slab method. -/
def slabHi (minq maxq oq dq : ℚ) : ℚ := max ((minq - oq) / dq) ((maxq - oq) / dq)

theorem cubeT0_eq (c : Cube) (r : Ray) :
    cubeT0 c r =
      max (max (slabLo c.min.x c.max.x r.origin.x r.direction.x)
               (slabLo c.min.y c.max.y r.origin.y r.direction.y))
          (slabLo c.min.z c.max.z r.origin.z r.direction.z) := by
  simp only [cubeT0, slabLo, Vec.sub, Vec.divComp, Vec.minComp]

theorem cubeT1_eq (c : Cube) (r : Ray) :
    cubeT1 c r =
      min (min (slabHi c.min.x c.max.x r.origin.x r.direction.x)
               (slabHi c.min.y c.max.y r.origin.y r.direction.y))
          (slabHi c.min.z c.max.z r.origin.z r.direction.z) := by
  simp only [cubeT1, slabHi, Vec.sub, Vec.divComp, Vec.maxComp]

theorem slab_mem (minq maxq oq dq t : ℚ) (hd : dq ≠ 0) (hmm : minq ≤ maxq)
    (h1 : slabLo minq maxq oq dq ≤ t) (h2 : t ≤ slabHi minq maxq oq dq) :
    minq ≤ oq + dq * t ∧ oq + dq * t ≤ maxq := by
  unfold slabLo at h1
  unfold slabHi at h2
  rcases hd.lt_or_lt with hneg | hpos
  · have hAB : (maxq - oq) / dq ≤ (minq - oq) / dq :=
      div_le_div_of_nonpos_of_le (le_of_lt hneg) (by linarith)
    have hA : (maxq - oq) / dq ≤ t := by rw [min_eq_right hAB] at h1; exact h1
    have hB : t ≤ (minq - oq) / dq := by rw [max_eq_left hAB] at h2; exact h2
    have hA2 : t * dq ≤ maxq - oq := (div_le_iff_of_neg hneg).mp hA
    have hB2 : minq - oq ≤ t * dq := (le_div_iff_of_neg hneg).mp hB
    constructor
    · linarith [mul_comm t dq]
    · linarith [mul_comm t dq]
  · have hAB : (minq - oq) / dq ≤ (maxq - oq) / dq :=
      (div_le_div_iff_of_pos_right hpos).mpr (by linarith)
    have hA : (minq - oq) / dq ≤ t := by rw [min_eq_left hAB] at h1; exact h1
    have hB : t ≤ (maxq - oq) / dq := by rw [max_eq_right hAB] at h2; exact h2
    have hA2 : minq - oq ≤ t * dq := (div_le_iff₀ hpos).mp hA
    have hB2 : t * dq ≤ maxq - oq := (le_div_iff₀ hpos).mp hB
    constructor
    · linarith [mul_comm t dq]
    · linarith [mul_comm t dq]

theorem slab_inside (minq maxq oq dq : ℚ) (hd : dq ≠ 0)
    (h1 : minq < oq) (h2 : oq < maxq) :
    slabLo minq maxq oq dq < 0 ∧ 0 < slabHi minq maxq oq dq := by
  unfold slabLo slabHi
  rcases hd.lt_or_lt with hneg | hpos
  · constructor
    · exact lt_of_le_of_lt (min_le_right _ _) (div_neg_of_pos_of_neg (by linarith) hneg)
    · exact lt_of_lt_of_le (div_pos_of_neg_of_neg (by linarith) hneg) (le_max_left _ _)
  · constructor
    · exact lt_of_le_of_lt (min_le_left _ _) (div_neg_of_neg_of_pos (by linarith) hpos)
    · exact lt_of_lt_of_le (div_pos (by linarith) hpos) (le_max_right _ _)

theorem sphere_intersect_sound (s : Sphere) (r : Ray) (sd : ℚ)
    (hsd2 : sd * sd = sphereDisc s r) (hsd0 : 0 ≤ sd)
    (hunit : r.direction.dot r.direction = 1) :
    (∀ t : ℚ, sphereIntersect s r sd = some t →
        1/100 < t ∧
        (r.position t).distanceSquared s.center = s.radius * s.radius ∧
        ∀ u : ℚ, (r.position u).distanceSquared s.center = s.radius * s.radius →
          1/100 < u → t ≤ u) ∧
    (r.origin.distanceSquared s.center < s.radius * s.radius →
        0 < -sphereB s r + sd ∧
        (1/100 < -sphereB s r + sd →
          sphereIntersect s r sd = some (-sphereB s r + sd))) := by
  have hdisc : sphereDisc s r = sphereB s r * sphereB s r - sphereC s r := rfl
  have hsd2' : sd * sd = sphereB s r * sphereB s r - sphereC s r := hsd2.trans hdisc
  constructor
  · intro t h
    simp only [sphereIntersect] at h
    split_ifs at h with h1 h2 h3
    · have ht : t = -sphereB s r - sd := (Option.some.inj h).symm
      subst ht
      refine ⟨h2, ?_, ?_⟩
      · rw [sphere_root_iff s r hunit]
        exact quad_roots_back _ _ _ _ hsd2' (Or.inl rfl)
      · intro u hu h100u
        rw [sphere_root_iff s r hunit] at hu
        rcases quad_roots _ _ _ _ hsd2' hu with h4 | h4
        · rw [h4]
        · rw [h4]; linarith
    · have ht : t = -sphereB s r + sd := (Option.some.inj h).symm
      subst ht
      refine ⟨h3, ?_, ?_⟩
      · rw [sphere_root_iff s r hunit]
        exact quad_roots_back _ _ _ _ hsd2' (Or.inr rfl)
      · intro u hu h100u
        rw [sphere_root_iff s r hunit] at hu
        rcases quad_roots _ _ _ _ hsd2' hu with h4 | h4
        · rw [h4] at h100u; exact absurd h100u h2
        · rw [h4]
  · intro hin
    have hco : r.origin.distanceSquared s.center
        = (r.origin.sub s.center).dot (r.origin.sub s.center) := rfl
    have hc : sphereC s r < 0 := by
      unfold sphereC
      rw [hco] at hin
      linarith
    have hdpos : 0 < sphereDisc s r := by
      rw [hdisc]
      nlinarith [mul_self_nonneg (sphereB s r)]
    have hprod : (-sphereB s r - sd) * (-sphereB s r + sd) = sphereC s r := by
      linear_combination -hsd2'
    have ht2pos : 0 < -sphereB s r + sd := by
      nlinarith [hprod, hc, hsd0]
    refine ⟨ht2pos, fun h100 => ?_⟩
    have ht1neg : -sphereB s r - sd < 0 := by
      nlinarith [hprod, hc, ht2pos]
    simp only [sphereIntersect]
    rw [if_pos hdpos, if_neg (by linarith : ¬(1/100 : ℚ) < -sphereB s r - sd),
      if_pos h100]

theorem min3_choice (a b c : ℚ) :
    min (min a b) c = a ∨ min (min a b) c = b ∨ min (min a b) c = c := by
  rcases min_choice (min a b) c with h | h
  · rcases min_choice a b with h2 | h2
    · left; rw [h, h2]
    · right; left; rw [h, h2]
  · right; right; exact h

theorem max3_choice (a b c : ℚ) :
    max (max a b) c = a ∨ max (max a b) c = b ∨ max (max a b) c = c := by
  rcases max_choice (max a b) c with h | h
  · rcases max_choice a b with h2 | h2
    · left; rw [h, h2]
    · right; left; rw [h, h2]
  · right; right; exact h

theorem face_of_slabHi (minq maxq oq dq t : ℚ) (hd : dq ≠ 0)
    (h : t = slabHi minq maxq oq dq) : oq + dq * t = minq ∨ oq + dq * t = maxq := by
  unfold slabHi at h
  rcases max_choice ((minq - oq) / dq) ((maxq - oq) / dq) with hm | hm <;>
    rw [hm] at h <;> subst h
  · left; field_simp
  · right; field_simp

theorem face_of_slabLo (minq maxq oq dq t : ℚ) (hd : dq ≠ 0)
    (h : t = slabLo minq maxq oq dq) : oq + dq * t = minq ∨ oq + dq * t = maxq := by
  unfold slabLo at h
  rcases min_choice ((minq - oq) / dq) ((maxq - oq) / dq) with hm | hm <;>
    rw [hm] at h <;> subst h
  · left; field_simp
  · right; field_simp

theorem cube_intersect_sound (c : Cube) (r : Ray)
    (hdx : r.direction.x ≠ 0) (hdy : r.direction.y ≠ 0) (hdz : r.direction.z ≠ 0)
    (hbx : c.min.x ≤ c.max.x) (hby : c.min.y ≤ c.max.y) (hbz : c.min.z ≤ c.max.z) :
    (∀ t : ℚ, cubeIntersect c r = some t →
        1/1000 ≤ t ∧ cubeContains c (r.position t) 0 = true ∧
        ((r.position t).x = c.min.x ∨ (r.position t).x = c.max.x ∨
         (r.position t).y = c.min.y ∨ (r.position t).y = c.max.y ∨
         (r.position t).z = c.min.z ∨ (r.position t).z = c.max.z)) ∧
    (c.min.x < r.origin.x ∧ r.origin.x < c.max.x ∧
     c.min.y < r.origin.y ∧ r.origin.y < c.max.y ∧
     c.min.z < r.origin.z ∧ r.origin.z < c.max.z →
        cubeT0 c r < 0 ∧ 0 < cubeT1 c r ∧
        (1/1000 < cubeT1 c r → cubeIntersect c r = some (cubeT1 c r)) ∧
        (cubeT1 c r ≤ 1/1000 → cubeIntersect c r = none)) := by
  have hpx : ∀ t : ℚ, (r.position t).x = r.origin.x + r.direction.x * t := by
    intro t; simp [Ray.position, Vec.add, Vec.mulScalar]
  have hpy : ∀ t : ℚ, (r.position t).y = r.origin.y + r.direction.y * t := by
    intro t; simp [Ray.position, Vec.add, Vec.mulScalar]
  have hpz : ∀ t : ℚ, (r.position t).z = r.origin.z + r.direction.z * t := by
    intro t; simp [Ray.position, Vec.add, Vec.mulScalar]
  constructor
  · intro t h
    have hbounds : 1/1000 ≤ t ∧ cubeT0 c r ≤ t ∧ t ≤ cubeT1 c r ∧
        (t = cubeT0 c r ∨ t = cubeT1 c r) := by
      simp only [cubeIntersect] at h
      split_ifs at h with h1 h2
      · have ht : t = cubeT1 c r := (Option.some.inj h).symm
        subst ht
        exact ⟨le_of_lt h1.2, by linarith [h1.1, h1.2], le_refl _, Or.inr rfl⟩
      · have ht : t = cubeT0 c r := (Option.some.inj h).symm
        subst ht
        exact ⟨h2.1, le_refl _, le_of_lt h2.2, Or.inl rfl⟩
    obtain ⟨hth, hlow, hhigh, hface⟩ := hbounds
    have hxlo : slabLo c.min.x c.max.x r.origin.x r.direction.x ≤ t := by
      refine le_trans ?_ hlow
      rw [cubeT0_eq]
      exact le_trans (le_max_left _ _) (le_max_left _ _)
    have hylo : slabLo c.min.y c.max.y r.origin.y r.direction.y ≤ t := by
      refine le_trans ?_ hlow
      rw [cubeT0_eq]
      exact le_trans (le_max_right _ _) (le_max_left _ _)
    have hzlo : slabLo c.min.z c.max.z r.origin.z r.direction.z ≤ t := by
      refine le_trans ?_ hlow
      rw [cubeT0_eq]
      exact le_max_right _ _
    have hxhi : t ≤ slabHi c.min.x c.max.x r.origin.x r.direction.x := by
      refine le_trans hhigh ?_
      rw [cubeT1_eq]
      exact le_trans (min_le_left _ _) (min_le_left _ _)
    have hyhi : t ≤ slabHi c.min.y c.max.y r.origin.y r.direction.y := by
      refine le_trans hhigh ?_
      rw [cubeT1_eq]
      exact le_trans (min_le_left _ _) (min_le_right _ _)
    have hzhi : t ≤ slabHi c.min.z c.max.z r.origin.z r.direction.z := by
      refine le_trans hhigh ?_
      rw [cubeT1_eq]
      exact min_le_right _ _
    have hmx := slab_mem _ _ _ _ _ hdx hbx hxlo hxhi
    have hmy := slab_mem _ _ _ _ _ hdy hby hylo hyhi
    have hmz := slab_mem _ _ _ _ _ hdz hbz hzlo hzhi
    refine ⟨hth, ?_, ?_⟩
    · simp only [cubeContains, sub_zero, add_zero, hpx, hpy, hpz]
      rw [if_neg, if_neg, if_neg]
      · rintro (h4 | h4) <;> linarith [hmz.1, hmz.2]
      · rintro (h4 | h4) <;> linarith [hmy.1, hmy.2]
      · rintro (h4 | h4) <;> linarith [hmx.1, hmx.2]
    · rcases hface with ht0 | ht1
      · rw [cubeT0_eq] at ht0
        rcases max3_choice (slabLo c.min.x c.max.x r.origin.x r.direction.x)
            (slabLo c.min.y c.max.y r.origin.y r.direction.y)
            (slabLo c.min.z c.max.z r.origin.z r.direction.z) with hax | hax | hax
        · rcases face_of_slabLo _ _ _ _ t hdx (ht0.trans hax) with hf | hf
          · exact Or.inl (by rw [hpx]; exact hf)
          · exact Or.inr (Or.inl (by rw [hpx]; exact hf))
        · rcases face_of_slabLo _ _ _ _ t hdy (ht0.trans hax) with hf | hf
          · exact Or.inr (Or.inr (Or.inl (by rw [hpy]; exact hf)))
          · exact Or.inr (Or.inr (Or.inr (Or.inl (by rw [hpy]; exact hf))))
        · rcases face_of_slabLo _ _ _ _ t hdz (ht0.trans hax) with hf | hf
          · exact Or.inr (Or.inr (Or.inr (Or.inr (Or.inl (by rw [hpz]; exact hf)))))
          · exact Or.inr (Or.inr (Or.inr (Or.inr (Or.inr (by rw [hpz]; exact hf)))))
      · rw [cubeT1_eq] at ht1
        rcases min3_choice (slabHi c.min.x c.max.x r.origin.x r.direction.x)
            (slabHi c.min.y c.max.y r.origin.y r.direction.y)
            (slabHi c.min.z c.max.z r.origin.z r.direction.z) with hax | hax | hax
        · rcases face_of_slabHi _ _ _ _ t hdx (ht1.trans hax) with hf | hf
          · exact Or.inl (by rw [hpx]; exact hf)
          · exact Or.inr (Or.inl (by rw [hpx]; exact hf))
        · rcases face_of_slabHi _ _ _ _ t hdy (ht1.trans hax) with hf | hf
          · exact Or.inr (Or.inr (Or.inl (by rw [hpy]; exact hf)))
          · exact Or.inr (Or.inr (Or.inr (Or.inl (by rw [hpy]; exact hf))))
        · rcases face_of_slabHi _ _ _ _ t hdz (ht1.trans hax) with hf | hf
          · exact Or.inr (Or.inr (Or.inr (Or.inr (Or.inl (by rw [hpz]; exact hf)))))
          · exact Or.inr (Or.inr (Or.inr (Or.inr (Or.inr (by rw [hpz]; exact hf)))))
  · rintro ⟨hx1, hx2, hy1, hy2, hz1, hz2⟩
    have ix := slab_inside c.min.x c.max.x r.origin.x r.direction.x hdx hx1 hx2
    have iy := slab_inside c.min.y c.max.y r.origin.y r.direction.y hdy hy1 hy2
    have iz := slab_inside c.min.z c.max.z r.origin.z r.direction.z hdz hz1 hz2
    have ht0neg : cubeT0 c r < 0 := by
      rw [cubeT0_eq]
      exact max_lt (max_lt ix.1 iy.1) iz.1
    have ht1pos : 0 < cubeT1 c r := by
      rw [cubeT1_eq]
      exact lt_min (lt_min ix.2 iy.2) iz.2
    refine ⟨ht0neg, ht1pos, fun hgt => ?_, fun hle => ?_⟩
    · simp only [cubeIntersect]
      rw [if_pos ⟨by linarith, hgt⟩]
    · simp only [cubeIntersect]
      rw [if_neg, if_neg]
      · rintro ⟨h4, _⟩; linarith
      · rintro ⟨_, h4⟩; linarith

theorem cyl_root (a b c s t : ℚ) (ha : a ≠ 0) (hs : s * s = b * b - 4 * a * c)
    (h : t = (-b + s) / (2 * a) ∨ t = (-b - s) / (2 * a)) :
    a * (t * t) + b * t + c = 0 := by
  have h2 : (2 : ℚ) * a ≠ 0 := mul_ne_zero two_ne_zero ha
  rcases h with rfl | rfl <;> field_simp <;> nlinarith [hs]

theorem cylinder_intersect_sound (cy : Cylinder) (ray : Ray) (s : ℚ)
    (ha : cylinderA ray ≠ 0) (hs2 : s * s = cylinderQ cy ray) (_hs0 : 0 ≤ s) :
    ∀ t : ℚ, cylinderIntersect cy ray s = some t →
      1/1000000 < t ∧
      (ray.position t).x * (ray.position t).x +
        (ray.position t).y * (ray.position t).y = cy.radius * cy.radius ∧
      cy.z0 < (ray.position t).z ∧ (ray.position t).z < cy.z1 := by
  intro t h
  have hroot : ∀ u : ℚ,
      (u = (-cylinderB ray + s) / (2 * cylinderA ray) ∨
       u = (-cylinderB ray - s) / (2 * cylinderA ray)) →
      (ray.position u).x * (ray.position u).x +
        (ray.position u).y * (ray.position u).y = cy.radius * cy.radius := by
    intro u hu
    have h0 := cyl_root (cylinderA ray) (cylinderB ray) (cylinderC cy ray) s u ha
      (by rw [hs2]; rfl) hu
    have hexp : (ray.position u).x * (ray.position u).x +
        (ray.position u).y * (ray.position u).y - cy.radius * cy.radius =
        cylinderA ray * (u * u) + cylinderB ray * u + cylinderC cy ray := by
      simp only [Ray.position, Vec.add, Vec.mulScalar, cylinderA, cylinderB, cylinderC]
      ring
    linarith [hexp, h0]
  have hz : ∀ u : ℚ, (ray.position u).z = ray.origin.z + u * ray.direction.z := by
    intro u
    simp [Ray.position, Vec.add, Vec.mulScalar]
    ring
  simp only [cylinderIntersect] at h
  split_ifs at h with hq hswap h1 h2 h3 h4
  · have ht := (Option.some.inj h).symm
    subst ht
    exact ⟨h1.1, hroot _ (Or.inr rfl), by rw [hz]; exact h1.2.1, by rw [hz]; exact h1.2.2⟩
  · have ht := (Option.some.inj h).symm
    subst ht
    exact ⟨h2.1, hroot _ (Or.inl rfl), by rw [hz]; exact h2.2.1, by rw [hz]; exact h2.2.2⟩
  · have ht := (Option.some.inj h).symm
    subst ht
    exact ⟨h3.1, hroot _ (Or.inl rfl), by rw [hz]; exact h3.2.1, by rw [hz]; exact h3.2.2⟩
  · have ht := (Option.some.inj h).symm
    subst ht
    exact ⟨h4.1, hroot _ (Or.inr rfl), by rw [hz]; exact h4.2.1, by rw [hz]; exact h4.2.2⟩

/-- **C1 (amended)**: each primitive's `intersect` returns only parameters that
clear its own per-shape threshold — `1e-2` for Sphere, `1e-3` for Cube, `1e-6`
for Cylinder, not a common `≈ 1e-3` — at which the ray meets the surface
(Sphere: point at squared distance `radius²` from the center, and the smallest
such root above the threshold, for unit directions; Cube: a boundary point of
the box, for rays with no zero direction component and `min ≤ max`; Cylinder:
a lateral-surface point with `z` strictly inside `(z0, z1)`).  For an origin
strictly inside, Sphere and Cube return the positive exit root whenever it
clears the threshold, but may return `NoHit` when the exit lies within the
threshold (and the Cylinder makes no interior-origin promise at all: rays that
leave through a cap, or run parallel to the axis, yield `NoHit`). -/
theorem intersect_tmin_per_shape :
    (∀ (s : Sphere) (r : Ray) (sd : ℚ),
        sd * sd = sphereDisc s r → 0 ≤ sd → r.direction.dot r.direction = 1 →
        (∀ t : ℚ, sphereIntersect s r sd = some t →
            1/100 < t ∧
            (r.position t).distanceSquared s.center = s.radius * s.radius ∧
            ∀ u : ℚ, (r.position u).distanceSquared s.center = s.radius * s.radius →
              1/100 < u → t ≤ u) ∧
        (r.origin.distanceSquared s.center < s.radius * s.radius →
            0 < -sphereB s r + sd ∧
            (1/100 < -sphereB s r + sd →
              sphereIntersect s r sd = some (-sphereB s r + sd)))) ∧
    (∀ (c : Cube) (r : Ray),
        r.direction.x ≠ 0 → r.direction.y ≠ 0 → r.direction.z ≠ 0 →
        c.min.x ≤ c.max.x → c.min.y ≤ c.max.y → c.min.z ≤ c.max.z →
        (∀ t : ℚ, cubeIntersect c r = some t →
            1/1000 ≤ t ∧ cubeContains c (r.position t) 0 = true ∧
            ((r.position t).x = c.min.x ∨ (r.position t).x = c.max.x ∨
             (r.position t).y = c.min.y ∨ (r.position t).y = c.max.y ∨
             (r.position t).z = c.min.z ∨ (r.position t).z = c.max.z)) ∧
        (c.min.x < r.origin.x ∧ r.origin.x < c.max.x ∧
         c.min.y < r.origin.y ∧ r.origin.y < c.max.y ∧
         c.min.z < r.origin.z ∧ r.origin.z < c.max.z →
            cubeT0 c r < 0 ∧ 0 < cubeT1 c r ∧
            (1/1000 < cubeT1 c r → cubeIntersect c r = some (cubeT1 c r)) ∧
            (cubeT1 c r ≤ 1/1000 → cubeIntersect c r = none))) ∧
    (∀ (cy : Cylinder) (ray : Ray) (s : ℚ),
        cylinderA ray ≠ 0 → s * s = cylinderQ cy ray → 0 ≤ s →
        ∀ t : ℚ, cylinderIntersect cy ray s = some t →
          1/1000000 < t ∧
          (ray.position t).x * (ray.position t).x +
            (ray.position t).y * (ray.position t).y = cy.radius * cy.radius ∧
          cy.z0 < (ray.position t).z ∧ (ray.position t).z < cy.z1) :=
  ⟨fun s r sd h1 h2 h3 => sphere_intersect_sound s r sd h1 h2 h3,
   fun c r h1 h2 h3 h4 h5 h6 => cube_intersect_sound c r h1 h2 h3 h4 h5 h6,
   fun cy ray s h1 h2 h3 => cylinder_intersect_sound cy ray s h1 h2 h3⟩

/-- Witness for the amended C1 theorem at concrete inputs: a sphere entered
from a strictly interior origin returns the exit root `3/2`, an interior cube
origin returns the exit slab parameter `1/2`, and the cylinder hit at `1/2048`
clears the cylinder's own `1e-6` threshold. -/
theorem intersect_tmin_per_shape_witness :
    sphereIntersect ⟨⟨0, 0, 0⟩, 1, SphereTextureQ.latLng⟩
        ⟨⟨-1/2, 0, 0⟩, ⟨1, 0, 0⟩⟩ 1 = some (3/2) ∧
    cubeIntersect ⟨⟨0, 0, 0⟩, ⟨1, 1, 1⟩, CubeTextureQ.vanilla⟩
        ⟨⟨1/2, 1/2, 1/2⟩, ⟨1, 1, 1⟩⟩ = some (1/2) ∧
    (1/1000000 : ℚ) < 1/2048 := by
  refine ⟨?_, ?_, ?_⟩
  · have h := (intersect_tmin_per_shape.1 ⟨⟨0, 0, 0⟩, 1, SphereTextureQ.latLng⟩
        ⟨⟨-1/2, 0, 0⟩, ⟨1, 0, 0⟩⟩ 1
        (by norm_num [sphereDisc, sphereB, sphereC, Vec.dot, Vec.sub])
        (by norm_num)
        (by norm_num [Vec.dot])).2
        (by norm_num [Vec.distanceSquared, Vec.lengthSquared, Vec.dot, Vec.sub])
    have hb : -sphereB ⟨⟨0, 0, 0⟩, 1, SphereTextureQ.latLng⟩
        ⟨⟨-1/2, 0, 0⟩, ⟨1, 0, 0⟩⟩ + 1 = 3/2 := by
      norm_num [sphereB, Vec.dot, Vec.sub]
    rw [hb] at h
    exact h.2 (by norm_num)
  · have h := ((intersect_tmin_per_shape.2.1 ⟨⟨0, 0, 0⟩, ⟨1, 1, 1⟩, CubeTextureQ.vanilla⟩
        ⟨⟨1/2, 1/2, 1/2⟩, ⟨1, 1, 1⟩⟩
        (by norm_num) (by norm_num) (by norm_num)
        (by norm_num) (by norm_num) (by norm_num)).2
        (by norm_num)).2.2.1
    have ht1 : cubeT1 ⟨⟨0, 0, 0⟩, ⟨1, 1, 1⟩, CubeTextureQ.vanilla⟩
        ⟨⟨1/2, 1/2, 1/2⟩, ⟨1, 1, 1⟩⟩ = 1/2 := by
      norm_num [cubeT1, Vec.sub, Vec.divComp, Vec.maxComp]
    rw [ht1] at h
    exact h (by norm_num)
  · have h := (intersect_tmin_per_shape.2.2 ⟨1, -1, 1, CylinderTextureQ.outline⟩
        ⟨⟨2047/2048, 0, 0⟩, ⟨1, 0, 0⟩⟩ 2
        (by norm_num [cylinderA])
        (by norm_num [cylinderQ, cylinderA, cylinderB, cylinderC])
        (by norm_num)) (1/2048)
        (by norm_num [cylinderIntersect, cylinderQ, cylinderA, cylinderB, cylinderC])
    exact h.1

/-! ## Cylinder paths (C3, C8) -/

/-- Modelled from the spec: `Matrix` (matrix.rs is not under src/) — 16 floats,
row-major 4×4 homogeneous transform.  The claims below never compute with the
matrix; it is carried as opaque render state. -/
structure MatrixQ where
  m00 : ℚ
  m01 : ℚ
  m02 : ℚ
  m03 : ℚ
  m10 : ℚ
  m11 : ℚ
  m12 : ℚ
  m13 : ℚ
  m20 : ℚ
  m21 : ℚ
  m22 : ℚ
  m23 : ℚ
  m30 : ℚ
  m31 : ℚ
  m32 : ℚ
  m33 : ℚ
deriving DecidableEq, Repr

/-- The identity matrix, used only to build concrete `RenderArgsQ` values. -/
def idMatrixQ : MatrixQ := ⟨1, 0, 0, 0, 0, 1, 0, 0, 0, 0, 1, 0, 0, 0, 0, 1⟩

/-- `RenderArgs` from shape.rs (not under src/), as described by the spec §4.1:
eye position, up vector, combined world→screen matrix and the screen-space
`step`. -/
structure RenderArgsQ where
  eye : Vec
  up : Vec
  screenMat : MatrixQ
  step : ℚ
deriving DecidableEq, Repr

/-- `radians` from src/src/util.rs: `degrees * PI / 180`, with `π` passed in as
the rational stand-in `piQ`. -/
def radiansQ (piQ : ℚ) (degrees : ℚ) : ℚ := degrees * piQ / 180

/-- `Cylinder::paths_striped` from src/src/cylinder.rs lines 82-90.  The Rust
loop is `for a in (0..360).step_by((360 / num) as usize)`.  `360 / num` is a
`u64` division, which PANICS when `num = 0`, and `step_by` PANICS when its
argument is `0` (which happens for every `num > 360`); both panics are modelled
by `none`.  Otherwise the azimuths are `0, s, 2s, …  < 360` for `s = 360/num`
(integer division), i.e. `⌈360/s⌉` of them. -/
def cylinderPathsStriped (cosQ sinQ : ℚ → ℚ) (piQ : ℚ) (cy : Cylinder)
    (num : Nat) : Option (List Path) :=
  if num = 0 then none
  else
    let step := 360 / num
    if step = 0 then none
    else
      some ((List.range' 0 ((360 + step - 1) / step) step).map fun a : Nat =>
        let x := cy.radius * cosQ (radiansQ piQ (a : ℚ))
        let y := cy.radius * sinQ (radiansQ piQ (a : ℚ))
        [⟨x, y, cy.z0⟩, ⟨x, y, cy.z1⟩])

/-- `Cylinder::paths` from src/src/cylinder.rs lines 215-221: dispatch on the
texture.  `paths_outline` builds on `adaptive_arc`/`adaptive_arc_inner`, which
are not part of the sources under src/, so the outline generator is carried as
the parameter `outlineImpl`; the `Striped` branch, the one the claims test, is
fully embedded. -/
def cylinderPaths (outlineImpl : Cylinder → RenderArgsQ → List Path)
    (cosQ sinQ : ℚ → ℚ) (piQ : ℚ) (cy : Cylinder) (args : RenderArgsQ) :
    Option (List Path) :=
  match cy.texture with
  | CylinderTextureQ.outline => some (outlineImpl cy args)
  | CylinderTextureQ.striped num => cylinderPathsStriped cosQ sinQ piQ cy num

/-- **C3**: the claim that path generation never aborts is violated by the
code: `Cylinder::paths` with `Striped(0)` evaluates `360 / 0` (a `u64` division
by zero, which panics), and with any `Striped(n)` for `n > 360` calls
`step_by(0)` (which also panics) — here `n = 361` — so the render aborts
instead of returning a `Paths` value. -/
theorem cylinder_paths_striped_zero_panics
    (outlineImpl : Cylinder → RenderArgsQ → List Path) (cosQ sinQ : ℚ → ℚ)
    (piQ : ℚ) (r z0 z1 : ℚ) (args : RenderArgsQ) :
    cylinderPaths outlineImpl cosQ sinQ piQ
        ⟨r, z0, z1, CylinderTextureQ.striped 0⟩ args = none ∧
    cylinderPaths outlineImpl cosQ sinQ piQ
        ⟨r, z0, z1, CylinderTextureQ.striped 361⟩ args = none := by
  constructor <;> rfl

/-- **C8, counterexample**: with `Striped(7)` the cylinder emits 8 vertical
lines, not 7: the integer step is `360 / 7 = 51`, giving azimuths
`0, 51, …, 357` — `⌈360/51⌉ = 8` of them, and not equally spaced around the
circle (the last gap is 3°). -/
theorem cylinder_striped_seven_emits_eight :
    Option.map List.length
        (cylinderPathsStriped (fun _ => 1) (fun _ => 0) 3
          ⟨1, 0, 1, CylinderTextureQ.striped 7⟩ 7) = some 8 := by
  rfl

/-- **C8 (amended)**: for every `n ≥ 1` that divides 360, `Striped(n)` emits
exactly `n` vertical two-point segments from `z0` to `z1` on the cylinder
surface, the `k`-th at azimuth `k·(360/n)` degrees — equally spaced.  (For
`n ≤ 360` not dividing 360 the count is `⌈360/⌊360/n⌋⌉`, which can exceed `n`,
and for `n = 0` or `n > 360` the code panics.) -/
theorem cylinder_striped_divisor_count (cosQ sinQ : ℚ → ℚ) (piQ : ℚ)
    (cy : Cylinder) (n : Nat) (h1 : 1 ≤ n) (hdvd : n ∣ 360) :
    ∃ l : List Path, cylinderPathsStriped cosQ sinQ piQ cy n = some l ∧
      l.length = n ∧
      ∀ k : Nat, ∀ hk : k < l.length,
        l.get ⟨k, hk⟩ =
          [⟨cy.radius * cosQ (radiansQ piQ ((k * (360 / n) : Nat) : ℚ)),
            cy.radius * sinQ (radiansQ piQ ((k * (360 / n) : Nat) : ℚ)), cy.z0⟩,
           ⟨cy.radius * cosQ (radiansQ piQ ((k * (360 / n) : Nat) : ℚ)),
            cy.radius * sinQ (radiansQ piQ ((k * (360 / n) : Nat) : ℚ)), cy.z1⟩] := by
  have hne : n ≠ 0 := by omega
  have h360 : n ≤ 360 := Nat.le_of_dvd (by norm_num) hdvd
  have hstepmul : 360 / n * n = 360 := Nat.div_mul_cancel hdvd
  have hstep1 : 1 ≤ 360 / n := by
    rcases Nat.eq_zero_or_pos (360 / n) with h | h
    · rw [h] at hstepmul; omega
    · exact h
  have hcount : (360 + 360 / n - 1) / (360 / n) = n := by
    have hrw : 360 + 360 / n - 1 = 360 / n * n + (360 / n - 1) := by omega
    rw [hrw, Nat.mul_add_div (by omega)]
    have : (360 / n - 1) / (360 / n) = 0 := Nat.div_eq_of_lt (by omega)
    omega
  have hcount2 : (359 + 360 / n) / (360 / n) = n := by
    have hrw : 359 + 360 / n = 360 + 360 / n - 1 := by omega
    rw [hrw, hcount]
  refine ⟨(List.range' 0 ((360 + 360 / n - 1) / (360 / n)) (360 / n)).map (fun a : Nat =>
      let x := cy.radius * cosQ (radiansQ piQ (a : ℚ))
      let y := cy.radius * sinQ (radiansQ piQ (a : ℚ))
      [⟨x, y, cy.z0⟩, ⟨x, y, cy.z1⟩]), ?_, ?_, ?_⟩
  · simp only [cylinderPathsStriped]
    rw [if_neg hne, if_neg (show ¬360 / n = 0 by omega)]
  · simp [hcount, hcount2]
  · intro k hk
    simp only [List.get_eq_getElem, List.getElem_map, List.getElem_range']
    have haz : 0 + 360 / n * k = k * (360 / n) := by
      rw [Nat.zero_add]; exact Nat.mul_comm _ _
    rw [haz]

/-! ## Cube paths (C7) -/

/-- The body of one iteration `i` of the loop in `Cube::paths_striped`
(src/src/cube.rs lines 128-144): four vertical strokes when `i ≠ stripes`,
then for each of `z1, z2` the two cap segments. -/
def cubeStripedChunk (c : Cube) (stripes i : Nat) : List Path :=
  let p : ℚ := (i : ℚ) / (stripes : ℚ)
  let x := c.min.x + (c.max.x - c.min.x) * p
  let y := c.min.y + (c.max.y - c.min.y) * p
  let xm := c.max.x - (c.max.x - c.min.x) * p
  let ym := c.max.y - (c.max.y - c.min.y) * p
  (if i ≠ stripes then
    [[⟨x, c.min.y, c.min.z⟩, ⟨x, c.min.y, c.max.z⟩],
     [⟨xm, c.max.y, c.min.z⟩, ⟨xm, c.max.y, c.max.z⟩],
     [⟨c.min.x, ym, c.min.z⟩, ⟨c.min.x, ym, c.max.z⟩],
     [⟨c.max.x, y, c.min.z⟩, ⟨c.max.x, y, c.max.z⟩]]
   else []) ++
  ([c.min.z, c.max.z].flatMap fun z =>
    [[⟨x, y, z⟩, ⟨xm, y, z⟩],
     [⟨x, y, z⟩, ⟨x, ym, z⟩]])

/-- `Cube::paths_striped` from src/src/cube.rs lines 123-146: the loop
`for i in 0..=stripes`.  (For `stripes = 0` the Rust code computes `0.0/0.0 =
NaN` coordinates; every theorem below assumes `1 ≤ stripes`, where ℚ and exact
`f64` agree.) -/
def cubePathsStriped (c : Cube) (stripes : Nat) : List Path :=
  (List.range (stripes + 1)).flatMap (cubeStripedChunk c stripes)

/-- `Cube::paths` from src/src/cube.rs lines 114-120: `Vanilla` renders as
`Striped(1)`. -/
def cubePaths (c : Cube) (_args : RenderArgsQ) : List Path :=
  match c.texture with
  | CubeTextureQ.vanilla => cubePathsStriped c 1
  | CubeTextureQ.striped stripes => cubePathsStriped c stripes

/-- The stripe coordinate `a + (b − a) · i/s` used by `paths_striped`. -/
def stripePos (a b : ℚ) (s i : Nat) : ℚ := a + (b - a) * ((i : ℚ) / (s : ℚ))

/-- Vertical two-point strokes spanning `z` from `min.z` to `max.z` on the face
`y = yface`. -/
def isVertOnFaceY (c : Cube) (yface : ℚ) : Path → Bool
  | [a, b] => decide (a.y = yface ∧ b.y = yface ∧ a.x = b.x ∧
      a.z = c.min.z ∧ b.z = c.max.z)
  | _ => false

/-- Vertical two-point strokes spanning `z` on the face `x = xface`. -/
def isVertOnFaceX (c : Cube) (xface : ℚ) : Path → Bool
  | [a, b] => decide (a.x = xface ∧ b.x = xface ∧ a.y = b.y ∧
      a.z = c.min.z ∧ b.z = c.max.z)
  | _ => false

/-- Two-point segments lying in the cap plane `z = zface`. -/
def isCapSeg (zface : ℚ) : Path → Bool
  | [a, b] => decide (a.z = zface ∧ b.z = zface)
  | _ => false

theorem countP_flatMap (p : Path → Bool) (f : Nat → List Path) (l : List Nat) :
    (l.flatMap f).countP p = (l.map fun x => (f x).countP p).sum := by
  induction l with
  | nil => rfl
  | cons a l ih => simp [List.flatMap_cons, List.countP_append, ih]

theorem sum_map_two_then_ones (g : Nat → Nat) :
    ∀ n : Nat, 1 ≤ n → g 0 = 2 → (∀ i, 0 < i → i < n → g i = 1) →
      ((List.range n).map g).sum = n + 1 := by
  intro n
  induction n with
  | zero => intro h; omega
  | succ n ih =>
    intro _ h0 hmid
    rw [List.range_succ, List.map_append, List.sum_append]
    rcases Nat.eq_zero_or_pos n with rfl | hn
    · simp [h0]
    · have hsum := ih hn h0 (fun i hi1 hi2 => hmid i hi1 (by omega))
      have hgn : g n = 1 := hmid n hn (by omega)
      simp [hsum, hgn]

theorem chunk_count_faceY_min (c : Cube) (s i : Nat) (hs : 1 ≤ s) (hi : i ≤ s)
    (hy : c.min.y < c.max.y) (hz : c.min.z < c.max.z) :
    (cubeStripedChunk c s i).countP (isVertOnFaceY c c.min.y) =
      if i = s then 0 else if i = 0 then 2 else 1 := by
  have hz1 : ¬c.min.z = c.max.z := ne_of_lt hz
  have hz2 : ¬c.max.z = c.min.z := ne_of_gt hz
  have hy2 : ¬c.max.y = c.min.y := ne_of_gt hy
  have hspos : (0 : ℚ) < (s : ℚ) := by exact_mod_cast hs
  rcases Nat.eq_or_lt_of_le hi with rfl | hilt
  · simp [cubeStripedChunk, isVertOnFaceY, hz1, hz2]
  · have hne : i ≠ s := by omega
    have hplt : ((i : ℚ) / (s : ℚ)) < 1 := by
      rw [div_lt_one hspos]
      exact_mod_cast hilt
    have hym : ¬c.max.y - (c.max.y - c.min.y) * ((i : ℚ) / (s : ℚ)) = c.min.y := by
      intro hcon
      nlinarith
    rcases Nat.eq_zero_or_pos i with rfl | hipos
    · simp [cubeStripedChunk, isVertOnFaceY, hz1, hz2, hy2, hne]
    · have hi0 : i ≠ 0 := by omega
      have hppos : (0 : ℚ) < ((i : ℚ) / (s : ℚ)) := by
        apply div_pos _ hspos
        exact_mod_cast hipos
      have hy4 : ¬c.min.y + (c.max.y - c.min.y) * ((i : ℚ) / (s : ℚ)) = c.min.y := by
        intro hcon
        nlinarith
      simp [cubeStripedChunk, isVertOnFaceY, hz1, hz2, hy2, hne, hi0, hym, hy4]

theorem chunk_count_faceY_max (c : Cube) (s i : Nat) (hs : 1 ≤ s) (hi : i ≤ s)
    (hy : c.min.y < c.max.y) (hz : c.min.z < c.max.z) :
    (cubeStripedChunk c s i).countP (isVertOnFaceY c c.max.y) =
      if i = s then 0 else if i = 0 then 2 else 1 := by
  have hz1 : ¬c.min.z = c.max.z := ne_of_lt hz
  have hz2 : ¬c.max.z = c.min.z := ne_of_gt hz
  have hy1 : ¬c.min.y = c.max.y := ne_of_lt hy
  have hspos : (0 : ℚ) < (s : ℚ) := by exact_mod_cast hs
  rcases Nat.eq_or_lt_of_le hi with rfl | hilt
  · simp [cubeStripedChunk, isVertOnFaceY, hz1, hz2]
  · have hne : i ≠ s := by omega
    have hplt : ((i : ℚ) / (s : ℚ)) < 1 := by
      rw [div_lt_one hspos]
      exact_mod_cast hilt
    have hy4 : ¬c.min.y + (c.max.y - c.min.y) * ((i : ℚ) / (s : ℚ)) = c.max.y := by
      intro hcon
      nlinarith
    rcases Nat.eq_zero_or_pos i with rfl | hipos
    · simp [cubeStripedChunk, isVertOnFaceY, hz1, hz2, hy1, hne]
    · have hi0 : i ≠ 0 := by omega
      have hppos : (0 : ℚ) < ((i : ℚ) / (s : ℚ)) := by
        apply div_pos _ hspos
        exact_mod_cast hipos
      have hym : ¬c.max.y - (c.max.y - c.min.y) * ((i : ℚ) / (s : ℚ)) = c.max.y := by
        intro hcon
        nlinarith
      simp [cubeStripedChunk, isVertOnFaceY, hz1, hz2, hy1, hne, hi0, hym, hy4]

theorem chunk_count_faceX_min (c : Cube) (s i : Nat) (hs : 1 ≤ s) (hi : i ≤ s)
    (hx : c.min.x < c.max.x) (hz : c.min.z < c.max.z) :
    (cubeStripedChunk c s i).countP (isVertOnFaceX c c.min.x) =
      if i = s then 0 else if i = 0 then 2 else 1 := by
  have hz1 : ¬c.min.z = c.max.z := ne_of_lt hz
  have hz2 : ¬c.max.z = c.min.z := ne_of_gt hz
  have hx2 : ¬c.max.x = c.min.x := ne_of_gt hx
  have hspos : (0 : ℚ) < (s : ℚ) := by exact_mod_cast hs
  rcases Nat.eq_or_lt_of_le hi with rfl | hilt
  · simp [cubeStripedChunk, isVertOnFaceX, hz1, hz2]
  · have hne : i ≠ s := by omega
    have hplt : ((i : ℚ) / (s : ℚ)) < 1 := by
      rw [div_lt_one hspos]
      exact_mod_cast hilt
    have hxm : ¬c.max.x - (c.max.x - c.min.x) * ((i : ℚ) / (s : ℚ)) = c.min.x := by
      intro hcon
      nlinarith
    rcases Nat.eq_zero_or_pos i with rfl | hipos
    · simp [cubeStripedChunk, isVertOnFaceX, hz1, hz2, hx2, hne]
    · have hi0 : i ≠ 0 := by omega
      have hppos : (0 : ℚ) < ((i : ℚ) / (s : ℚ)) := by
        apply div_pos _ hspos
        exact_mod_cast hipos
      have hx4 : ¬c.min.x + (c.max.x - c.min.x) * ((i : ℚ) / (s : ℚ)) = c.min.x := by
        intro hcon
        nlinarith
      simp [cubeStripedChunk, isVertOnFaceX, hz1, hz2, hx2, hne, hi0, hxm, hx4]

theorem chunk_count_faceX_max (c : Cube) (s i : Nat) (hs : 1 ≤ s) (hi : i ≤ s)
    (hx : c.min.x < c.max.x) (hz : c.min.z < c.max.z) :
    (cubeStripedChunk c s i).countP (isVertOnFaceX c c.max.x) =
      if i = s then 0 else if i = 0 then 2 else 1 := by
  have hz1 : ¬c.min.z = c.max.z := ne_of_lt hz
  have hz2 : ¬c.max.z = c.min.z := ne_of_gt hz
  have hx1 : ¬c.min.x = c.max.x := ne_of_lt hx
  have hspos : (0 : ℚ) < (s : ℚ) := by exact_mod_cast hs
  rcases Nat.eq_or_lt_of_le hi with rfl | hilt
  · simp [cubeStripedChunk, isVertOnFaceX, hz1, hz2]
  · have hne : i ≠ s := by omega
    have hplt : ((i : ℚ) / (s : ℚ)) < 1 := by
      rw [div_lt_one hspos]
      exact_mod_cast hilt
    have hx4 : ¬c.min.x + (c.max.x - c.min.x) * ((i : ℚ) / (s : ℚ)) = c.max.x := by
      intro hcon
      nlinarith
    rcases Nat.eq_zero_or_pos i with rfl | hipos
    · simp [cubeStripedChunk, isVertOnFaceX, hz1, hz2, hx1, hne]
    · have hi0 : i ≠ 0 := by omega
      have hppos : (0 : ℚ) < ((i : ℚ) / (s : ℚ)) := by
        apply div_pos _ hspos
        exact_mod_cast hipos
      have hxm : ¬c.max.x - (c.max.x - c.min.x) * ((i : ℚ) / (s : ℚ)) = c.max.x := by
        intro hcon
        nlinarith
      simp [cubeStripedChunk, isVertOnFaceX, hz1, hz2, hx1, hne, hi0, hxm, hx4]

theorem chunk_count_cap (c : Cube) (s i : Nat) (hz : c.min.z < c.max.z)
    (zface : ℚ) (hzf : zface = c.min.z ∨ zface = c.max.z) :
    (cubeStripedChunk c s i).countP (isCapSeg zface) = 2 := by
  have hz1 : ¬c.min.z = c.max.z := ne_of_lt hz
  have hz2 : ¬c.max.z = c.min.z := ne_of_gt hz
  rcases hzf with rfl | rfl <;>
    by_cases hne : i = s <;>
      simp [cubeStripedChunk, isCapSeg, hz1, hz2, hne]

theorem sum_map_const_two (g : Nat → Nat) (l : List Nat) (h : ∀ x ∈ l, g x = 2) :
    (l.map g).sum = 2 * l.length := by
  induction l with
  | nil => rfl
  | cons a l ih =>
    simp only [List.map_cons, List.sum_cons, List.length_cons,
      ih (fun x hx => h x (List.mem_cons_of_mem a hx)), h a (List.mem_cons_self a l)]
    omega

theorem striped_countP_boundary (c : Cube) (s : Nat) (hs : 1 ≤ s)
    (p : Path → Bool)
    (hchunk : ∀ i, i ≤ s → (cubeStripedChunk c s i).countP p =
      if i = s then 0 else if i = 0 then 2 else 1) :
    (cubePathsStriped c s).countP p = s + 1 := by
  unfold cubePathsStriped
  rw [countP_flatMap, List.range_succ, List.map_append, List.sum_append]
  have hlast : (cubeStripedChunk c s s).countP p = 0 := by
    rw [hchunk s (le_refl s)]
    simp
  have hmain :
      ((List.range s).map fun i => (cubeStripedChunk c s i).countP p).sum = s + 1 := by
    apply sum_map_two_then_ones _ s hs
    · rw [hchunk 0 (by omega)]
      simp [show (0 : Nat) ≠ s by omega]
    · intro i h1 h2
      rw [hchunk i (by omega)]
      simp [show i ≠ s by omega, show i ≠ 0 by omega]
  simp [hmain, hlast]

theorem striped_cap_ring_mem (c : Cube) (s : Nat) (hs : 1 ≤ s) (i : Nat) (hi : i ≤ s)
    (z : ℚ) (hz : z = c.min.z ∨ z = c.max.z) :
    [⟨stripePos c.min.x c.max.x s i, stripePos c.min.y c.max.y s i, z⟩,
     ⟨stripePos c.min.x c.max.x s (s - i), stripePos c.min.y c.max.y s i, z⟩]
      ∈ cubePathsStriped c s ∧
    [⟨stripePos c.min.x c.max.x s i, stripePos c.min.y c.max.y s i, z⟩,
     ⟨stripePos c.min.x c.max.x s i, stripePos c.min.y c.max.y s (s - i), z⟩]
      ∈ cubePathsStriped c s := by
  have hcast : ((s - i : Nat) : ℚ) = (s : ℚ) - (i : ℚ) := by
    have := Nat.cast_sub hi (R := ℚ)
    exact_mod_cast this
  have hsne : ((s : ℚ)) ≠ 0 := by
    have : (0 : ℚ) < (s : ℚ) := by exact_mod_cast hs
    exact ne_of_gt this
  have hxm : stripePos c.min.x c.max.x s (s - i) =
      c.max.x - (c.max.x - c.min.x) * ((i : ℚ) / (s : ℚ)) := by
    unfold stripePos
    rw [hcast]
    field_simp
    ring
  have hym : stripePos c.min.y c.max.y s (s - i) =
      c.max.y - (c.max.y - c.min.y) * ((i : ℚ) / (s : ℚ)) := by
    unfold stripePos
    rw [hcast]
    field_simp
    ring
  refine ⟨?_, ?_⟩
  · unfold cubePathsStriped
    apply List.mem_flatMap.mpr
    refine ⟨i, by simp [List.mem_range]; omega, ?_⟩
    rw [hxm]
    rcases hz with rfl | rfl <;>
      simp [cubeStripedChunk, stripePos, List.mem_append]
  · unfold cubePathsStriped
    apply List.mem_flatMap.mpr
    refine ⟨i, by simp [List.mem_range]; omega, ?_⟩
    rw [hym]
    rcases hz with rfl | rfl <;>
      simp [cubeStripedChunk, stripePos, List.mem_append]

theorem striped_one_12_edges (c : Cube) :
    cubePathsStriped c 1 =
      [[⟨c.min.x, c.min.y, c.min.z⟩, ⟨c.min.x, c.min.y, c.max.z⟩],
       [⟨c.max.x, c.max.y, c.min.z⟩, ⟨c.max.x, c.max.y, c.max.z⟩],
       [⟨c.min.x, c.max.y, c.min.z⟩, ⟨c.min.x, c.max.y, c.max.z⟩],
       [⟨c.max.x, c.min.y, c.min.z⟩, ⟨c.max.x, c.min.y, c.max.z⟩],
       [⟨c.min.x, c.min.y, c.min.z⟩, ⟨c.max.x, c.min.y, c.min.z⟩],
       [⟨c.min.x, c.min.y, c.min.z⟩, ⟨c.min.x, c.max.y, c.min.z⟩],
       [⟨c.min.x, c.min.y, c.max.z⟩, ⟨c.max.x, c.min.y, c.max.z⟩],
       [⟨c.min.x, c.min.y, c.max.z⟩, ⟨c.min.x, c.max.y, c.max.z⟩],
       [⟨c.max.x, c.max.y, c.min.z⟩, ⟨c.min.x, c.max.y, c.min.z⟩],
       [⟨c.max.x, c.max.y, c.min.z⟩, ⟨c.max.x, c.min.y, c.min.z⟩],
       [⟨c.max.x, c.max.y, c.max.z⟩, ⟨c.min.x, c.max.y, c.max.z⟩],
       [⟨c.max.x, c.max.y, c.max.z⟩, ⟨c.max.x, c.min.y, c.max.z⟩]] := by
  show (List.range 2).flatMap (cubeStripedChunk c 1) = _
  simp only [show List.range 2 = [0, 1] from rfl, List.flatMap_cons, List.flatMap_nil,
    List.append_nil, cubeStripedChunk]
  norm_num

/-- **C7**: for `s ≥ 1` and a nondegenerate cube, `Striped(s)` emits `s+1`
vertical strokes on each of the four vertical faces (counting the shared
corner edges for both adjacent faces); on each of the top and bottom faces it
emits `2(s+1)` cap segments which, for each `i ≤ s`, include the two sides of
the nested rectangle ring at stripe positions `i` and `s−i` (the pairs at `i`
and `s−i` together draw the full ring perimeter, so the caps carry the `s+1`
perimeter rings); and `Vanilla` renders as `Striped(1)`, which is exactly the
list of the 12 edges of the cube. -/
theorem cube_striped_paths_structure (c : Cube) (args : RenderArgsQ) (s : Nat)
    (hs : 1 ≤ s) (hx : c.min.x < c.max.x) (hy : c.min.y < c.max.y)
    (hz : c.min.z < c.max.z) :
    ((cubePathsStriped c s).countP (isVertOnFaceY c c.min.y) = s + 1 ∧
     (cubePathsStriped c s).countP (isVertOnFaceY c c.max.y) = s + 1 ∧
     (cubePathsStriped c s).countP (isVertOnFaceX c c.min.x) = s + 1 ∧
     (cubePathsStriped c s).countP (isVertOnFaceX c c.max.x) = s + 1) ∧
    ((cubePathsStriped c s).countP (isCapSeg c.min.z) = 2 * (s + 1) ∧
     (cubePathsStriped c s).countP (isCapSeg c.max.z) = 2 * (s + 1) ∧
     (∀ i, i ≤ s → ∀ z, z = c.min.z ∨ z = c.max.z →
        [⟨stripePos c.min.x c.max.x s i, stripePos c.min.y c.max.y s i, z⟩,
         ⟨stripePos c.min.x c.max.x s (s - i), stripePos c.min.y c.max.y s i, z⟩]
          ∈ cubePathsStriped c s ∧
        [⟨stripePos c.min.x c.max.x s i, stripePos c.min.y c.max.y s i, z⟩,
         ⟨stripePos c.min.x c.max.x s i, stripePos c.min.y c.max.y s (s - i), z⟩]
          ∈ cubePathsStriped c s)) ∧
    (c.texture = CubeTextureQ.vanilla → cubePaths c args = cubePathsStriped c 1) ∧
    cubePathsStriped c 1 =
      [[⟨c.min.x, c.min.y, c.min.z⟩, ⟨c.min.x, c.min.y, c.max.z⟩],
       [⟨c.max.x, c.max.y, c.min.z⟩, ⟨c.max.x, c.max.y, c.max.z⟩],
       [⟨c.min.x, c.max.y, c.min.z⟩, ⟨c.min.x, c.max.y, c.max.z⟩],
       [⟨c.max.x, c.min.y, c.min.z⟩, ⟨c.max.x, c.min.y, c.max.z⟩],
       [⟨c.min.x, c.min.y, c.min.z⟩, ⟨c.max.x, c.min.y, c.min.z⟩],
       [⟨c.min.x, c.min.y, c.min.z⟩, ⟨c.min.x, c.max.y, c.min.z⟩],
       [⟨c.min.x, c.min.y, c.max.z⟩, ⟨c.max.x, c.min.y, c.max.z⟩],
       [⟨c.min.x, c.min.y, c.max.z⟩, ⟨c.min.x, c.max.y, c.max.z⟩],
       [⟨c.max.x, c.max.y, c.min.z⟩, ⟨c.min.x, c.max.y, c.min.z⟩],
       [⟨c.max.x, c.max.y, c.min.z⟩, ⟨c.max.x, c.min.y, c.min.z⟩],
       [⟨c.max.x, c.max.y, c.max.z⟩, ⟨c.min.x, c.max.y, c.max.z⟩],
       [⟨c.max.x, c.max.y, c.max.z⟩, ⟨c.max.x, c.min.y, c.max.z⟩]] := by
  refine ⟨⟨?_, ?_, ?_, ?_⟩, ⟨?_, ?_, ?_⟩, ?_, striped_one_12_edges c⟩
  · exact striped_countP_boundary c s hs _
      (fun i hi => chunk_count_faceY_min c s i hs hi hy hz)
  · exact striped_countP_boundary c s hs _
      (fun i hi => chunk_count_faceY_max c s i hs hi hy hz)
  · exact striped_countP_boundary c s hs _
      (fun i hi => chunk_count_faceX_min c s i hs hi hx hz)
  · exact striped_countP_boundary c s hs _
      (fun i hi => chunk_count_faceX_max c s i hs hi hx hz)
  · unfold cubePathsStriped
    rw [countP_flatMap,
      sum_map_const_two _ _ (fun i hi => chunk_count_cap c s i hz _ (Or.inl rfl))]
    simp
  · unfold cubePathsStriped
    rw [countP_flatMap,
      sum_map_const_two _ _ (fun i hi => chunk_count_cap c s i hz _ (Or.inr rfl))]
    simp
  · exact fun i hi z hzf => striped_cap_ring_mem c s hs i hi z hzf
  · intro hv
    unfold cubePaths
    rw [hv]

/-- Witness for the C7 theorem on the unit cube with `Striped(2)`: each of the
four vertical faces carries 3 vertical strokes and each cap carries 6
segments. -/
theorem cube_striped_paths_structure_witness :
    (cubePathsStriped ⟨⟨0, 0, 0⟩, ⟨1, 1, 1⟩, CubeTextureQ.striped 2⟩ 2).countP
        (isVertOnFaceY ⟨⟨0, 0, 0⟩, ⟨1, 1, 1⟩, CubeTextureQ.striped 2⟩ 0) = 3 ∧
    (cubePathsStriped ⟨⟨0, 0, 0⟩, ⟨1, 1, 1⟩, CubeTextureQ.striped 2⟩ 2).countP
        (isCapSeg 0) = 6 := by
  have h := cube_striped_paths_structure ⟨⟨0, 0, 0⟩, ⟨1, 1, 1⟩, CubeTextureQ.striped 2⟩
    ⟨⟨0, 0, 0⟩, ⟨0, 0, 1⟩, idMatrixQ, 1/100⟩ 2 (by norm_num)
    (by norm_num) (by norm_num) (by norm_num)
  exact ⟨h.1.1, h.2.1.1⟩

/-! ## OutlineSphere paths (C4) -/

/-- The `f64` operations `OutlineSphere::paths` draws on (square root,
trigonometry, π) together with `recursive_arc_subdivide`
(src/src/sphere.rs lines 455-485, whose output is a list of arc angles;
its screen-space recursion is irrational-valued, so it is carried
abstractly).  Claims about the outline generator hold for every
interpretation of these operations. -/
structure GeomOps where
  sqrt : ℚ → ℚ
  sin : ℚ → ℚ
  cos : ℚ → ℚ
  asin : ℚ → ℚ
  tan : ℚ → ℚ
  pi : ℚ
  arcSubdivide : ℚ → ℚ → ℚ → Vec × Vec × Vec → MatrixQ → ℚ → List ℚ

/-- Modelled from the spec: `Vector::length`, the square root of the squared
length, via the caller's square-root valuation. -/
def Vec.lengthWith (sq : ℚ → ℚ) (a : Vec) : ℚ := sq a.lengthSquared

/-- `radius_expansion` from src/src/sphere.rs lines 441-453.  (`radius[1]` and
`last()` are total here via defaults; in Rust they would panic on an arc of
fewer than two angles, which `recursive_arc_subdivide` never produces.) -/
def radius_expansion (cosQ : ℚ → ℚ) (path : List ℚ) (r : ℚ) : List ℚ :=
  let radius := 0 :: (path.zip path.tail).map (fun ab => r / cosQ ((ab.2 - ab.1) / 2))
  let back := radius.getLastD 0
  let front := radius.getD 1 0
  (back :: radius.tail) ++ [front]

/-- The basis vector `w` of `OutlineSphere::paths` (src/src/sphere.rs line
407). -/
def outlineW (ops : GeomOps) (sphere : Sphere) (args : RenderArgsQ) : Vec :=
  (sphere.center.sub args.eye).normalizeWith ops.sqrt

/-- The basis vector `u` (src/src/sphere.rs lines 410-416): normalize `w × up`,
falling back to `w × min_axis(w)` when `|w × up|² < 1e-18`. -/
def outlineU (ops : GeomOps) (sphere : Sphere) (args : RenderArgsQ) : Vec :=
  let w := outlineW ops sphere args
  let crossv := w.cross args.up
  if crossv.lengthSquared < 1/1000000000000000000 then
    (w.cross w.minAxis).normalizeWith ops.sqrt
  else crossv.normalizeWith ops.sqrt

/-- The basis vector `v = normalize(w × u)` (src/src/sphere.rs line 417). -/
def outlineV (ops : GeomOps) (sphere : Sphere) (args : RenderArgsQ) : Vec :=
  ((outlineW ops sphere args).cross (outlineU ops sphere args)).normalizeWith ops.sqrt

/-- The silhouette-circle center `c = eye + w·d` (src/src/sphere.rs line 418),
with `θ = asin(opp/hyp)`, `adj = opp/tan θ` and `d = cos θ · adj`. -/
def outlineCenterPoint (ops : GeomOps) (sphere : Sphere) (args : RenderArgsQ) : Vec :=
  let hyp := (sphere.center.sub args.eye).lengthWith ops.sqrt
  let theta := ops.asin (sphere.radius / hyp)
  let adj := sphere.radius / ops.tan theta
  let d := ops.cos theta * adj
  args.eye.add ((outlineW ops sphere args).mulScalar d)

/-- `OutlineSphere::paths` from src/src/sphere.rs lines 393-438: empty when
`hyp < opp` (note: strictly less — an eye exactly on the sphere falls through
to the circle construction), else a single polyline built from the subdivided
arc angles with the expanded radii. -/
def outlineSpherePaths (ops : GeomOps) (sphere : Sphere) (args : RenderArgsQ) :
    List Path :=
  let hyp := (sphere.center.sub args.eye).lengthWith ops.sqrt
  let opp := sphere.radius
  if hyp < opp then []
  else
    let theta := ops.asin (opp / hyp)
    let adj := opp / ops.tan theta
    let r := ops.sin theta * adj
    let u := outlineU ops sphere args
    let v := outlineV ops sphere args
    let c := outlineCenterPoint ops sphere args
    let path := ops.arcSubdivide 0 (ops.pi * 2) r (c, u, v) args.screenMat
      (args.step ^ 2)
    let expanded := radius_expansion ops.cos path r
    [path.enum.map (fun ib =>
      let maxr := max (expanded.getD ib.1 0) (expanded.getD (ib.1 + 1) 0)
      (c.add (u.mulScalar (ops.cos ib.2 * maxr))).add
        (v.mulScalar (ops.sin ib.2 * maxr)))]

/-- Witness for the amended C8 theorem: `Striped(4)` on a concrete cylinder
emits exactly 4 vertical lines. -/
theorem cylinder_striped_divisor_count_witness :
    ∃ l : List Path,
      cylinderPathsStriped (fun _ => 1) (fun _ => 0) 3
        ⟨2, 0, 5, CylinderTextureQ.striped 4⟩ 4 = some l ∧ l.length = 4 := by
  obtain ⟨l, hl, hlen, _⟩ := cylinder_striped_divisor_count (fun _ => 1) (fun _ => 0) 3
    ⟨2, 0, 5, CylinderTextureQ.striped 4⟩ 4 (by norm_num) (by norm_num)
  exact ⟨l, hl, hlen⟩

theorem cross_dot_left (a b : Vec) : (a.cross b).dot a = 0 := by
  simp only [Vec.cross, Vec.dot]
  ring

theorem mulScalar_dot (a : Vec) (k : ℚ) (b : Vec) :
    (a.mulScalar k).dot b = k * (a.dot b) := by
  simp only [Vec.mulScalar, Vec.dot]
  ring

theorem normalizeWith_dot (sq : ℚ → ℚ) (a b : Vec) :
    (a.normalizeWith sq).dot b = (1 / sq a.lengthSquared) * (a.dot b) := by
  simp only [Vec.normalizeWith, mulScalar_dot]

theorem outlineU_dot_w (ops : GeomOps) (sphere : Sphere) (args : RenderArgsQ) :
    (outlineU ops sphere args).dot (outlineW ops sphere args) = 0 := by
  simp only [outlineU]
  split_ifs <;> rw [normalizeWith_dot, cross_dot_left, mul_zero]

theorem outlineV_dot_w (ops : GeomOps) (sphere : Sphere) (args : RenderArgsQ) :
    (outlineV ops sphere args).dot (outlineW ops sphere args) = 0 := by
  unfold outlineV
  rw [normalizeWith_dot, cross_dot_left, mul_zero]

/-- **C4 (amended)**: `OutlineSphere::paths` is empty exactly when
`hyp < radius` strictly — an eye exactly on the sphere (`hyp = radius`) still
emits a polyline — and otherwise it emits exactly one polyline, all of whose
vertices lie in the silhouette plane through `c = eye + d·w` perpendicular to
the view axis `w`. -/
theorem outline_sphere_empty_iff_strict (ops : GeomOps) (sphere : Sphere)
    (args : RenderArgsQ) :
    (outlineSpherePaths ops sphere args).length =
      (if (sphere.center.sub args.eye).lengthWith ops.sqrt < sphere.radius
       then 0 else 1) ∧
    ∀ p ∈ outlineSpherePaths ops sphere args, ∀ vert ∈ p,
      (vert.sub (outlineCenterPoint ops sphere args)).dot
        (outlineW ops sphere args) = 0 := by
  constructor
  · simp only [outlineSpherePaths]
    split_ifs <;> rfl
  · intro p hp vert hv
    simp only [outlineSpherePaths] at hp
    split_ifs at hp
    · exact absurd hp (List.not_mem_nil p)
    · rw [List.mem_singleton] at hp
      subst hp
      obtain ⟨ib, _, rfl⟩ := List.mem_map.mp hv
      have hexp : ∀ (cc uu vv : Vec) (a b : ℚ),
          (((cc.add (uu.mulScalar a)).add (vv.mulScalar b)).sub cc).dot
            (outlineW ops sphere args) =
            a * (uu.dot (outlineW ops sphere args)) +
              b * (vv.dot (outlineW ops sphere args)) := by
        intro cc uu vv a b
        simp only [Vec.add, Vec.sub, Vec.mulScalar, Vec.dot]
        ring
      rw [hexp, outlineU_dot_w, outlineV_dot_w, mul_zero, mul_zero, add_zero]

/-- The concrete interpretation of the abstract operations used by the C4
counterexample: the only square root taken is `√1 = 1`. -/
def cexOps : GeomOps where
  sqrt := fun q => if q = 1 then 1 else 0
  sin := fun _ => 0
  cos := fun _ => 1
  asin := fun _ => 0
  tan := fun _ => 1
  pi := 3
  arcSubdivide := fun alpha beta _ _ _ _ => [alpha, beta]

/-- **C4, counterexample**: an eye exactly on the sphere (`|center − eye| = r`,
so `|c − e| ≤ r` as the claim reads) does not give empty `Paths`: the code only
returns empty for `hyp < radius` strictly, and here emits one polyline. -/
theorem outline_sphere_eye_on_sphere_not_empty :
    Vec.lengthSquared (Vec.sub (Vec.mk 0 0 0) (Vec.mk 1 0 0)) = 1 * 1 ∧
    (outlineSpherePaths cexOps (Sphere.mk ⟨0, 0, 0⟩ 1 SphereTextureQ.latLng)
        (RenderArgsQ.mk ⟨1, 0, 0⟩ ⟨0, 0, 1⟩ idMatrixQ (1/100))).length = 1 := by
  constructor
  · norm_num [Vec.sub, Vec.lengthSquared, Vec.dot]
  · rw [(outline_sphere_empty_iff_strict cexOps _ _).1]
    norm_num [Vec.lengthWith, Vec.sub, Vec.lengthSquared, Vec.dot, cexOps]

/-! ## Mesh paths (C2) and Mesh compile/intersect (C9) -/

/-- `Triangle` from src/src/triangle.rs (the cached `bx` is omitted; no claim
reads it). -/
structure Triangle where
  v1 : Vec
  v2 : Vec
  v3 : Vec
deriving DecidableEq, Repr

/-- `EPS` from common.rs (not under src/); the spec fixes the Möller–Trumbore
epsilon at `1e-9`. -/
def EPS : ℚ := 1/1000000000

/-- `Triangle::intersect_vertices` from src/src/triangle.rs lines 27-69
(Möller–Trumbore; all arithmetic is rational, division happens only under
`|det| ≥ EPS`). -/
def triangleIntersect (t : Triangle) (r : Ray) : Hit :=
  let e1x := t.v2.x - t.v1.x
  let e1y := t.v2.y - t.v1.y
  let e1z := t.v2.z - t.v1.z
  let e2x := t.v3.x - t.v1.x
  let e2y := t.v3.y - t.v1.y
  let e2z := t.v3.z - t.v1.z
  let px := r.direction.y * e2z - r.direction.z * e2y
  let py := r.direction.z * e2x - r.direction.x * e2z
  let pz := r.direction.x * e2y - r.direction.y * e2x
  let det := e1x * px + e1y * py + e1z * pz
  if det > -EPS ∧ det < EPS then none
  else
    let inv := 1 / det
    let tx := r.origin.x - t.v1.x
    let ty := r.origin.y - t.v1.y
    let tz := r.origin.z - t.v1.z
    let u := (tx * px + ty * py + tz * pz) * inv
    if u < 0 ∨ u > 1 then none
    else
      let qx := ty * e1z - tz * e1y
      let qy := tz * e1x - tx * e1z
      let qz := tx * e1y - ty * e1x
      let v := (r.direction.x * qx + r.direction.y * qy + r.direction.z * qz) * inv
      if v < 0 ∨ u + v > 1 then none
      else
        let d := (e2x * qx + e2y * qy + e2z * qz) * inv
        if d < EPS then none else some d

/-- Modelled from the spec: `Tree` (tree.rs is not under src/) — the BVH §4.5.
Its query contract is all the claims use: `intersect` returns the minimum `Hit`
over the shapes it was built from (the BVH pruning only accelerates that
minimum). -/
structure TreeQ where
  shapes : List Triangle
deriving DecidableEq, Repr

/-- Modelled from the spec: `Tree::new`. -/
def TreeQ.new (shapes : List Triangle) : TreeQ := ⟨shapes⟩

/-- Modelled from the spec: `Hit` composition via `min` (closest wins,
`NoHit` is the identity). -/
def hitMin (a b : Hit) : Hit :=
  match a, b with
  | none, b => b
  | some a, none => some a
  | some a, some b => some (min a b)

/-- Modelled from the spec: `Tree::intersect` — the minimum hit over the
tree's shapes. -/
def TreeQ.intersect (t : TreeQ) (r : Ray) : Hit :=
  t.shapes.foldl (fun acc s => hitMin acc (triangleIntersect s r)) none

/-- `VertexMerger` from src/src/mesh.rs lines 194-246: a deduplicated vertex
list with a spatial hash grid of cell size `epsilon`.  The `HashMap` is
modelled by an association list (exact-key get/entry semantics are identical;
per-cell index lists keep insertion order exactly as the `Vec` values do). -/
structure VertexMerger where
  vertices : List Vec
  grid : List ((Int × Int × Int) × List Nat)
  epsilon : ℚ
  epsilonSq : ℚ
deriving DecidableEq, Repr

/-- `VertexMerger::new` from src/src/mesh.rs lines 202-209. -/
def VertexMerger.new (epsilon : ℚ) : VertexMerger := ⟨[], [], epsilon, epsilon * epsilon⟩

/-- `HashMap::get` on the grid: the association-list lookup. -/
def gridGet (g : List ((Int × Int × Int) × List Nat)) (key : Int × Int × Int) :
    Option (List Nat) :=
  (g.find? (fun e => decide (e.1 = key))).map (fun e => e.2)

/-- `grid.entry(key).or_insert_with(Vec::new).push(idx)`. -/
def gridPush (g : List ((Int × Int × Int) × List Nat)) (key : Int × Int × Int)
    (idx : Nat) : List ((Int × Int × Int) × List Nat) :=
  if g.any (fun e => decide (e.1 = key)) then
    g.map (fun e => if e.1 = key then (e.1, e.2 ++ [idx]) else e)
  else g ++ [(key, [idx])]

/-- `VertexMerger::get_or_insert` from src/src/mesh.rs lines 213-245: scan the
3×3×3 cell neighbourhood in the Rust iteration order (`dx` outer, `dz` inner)
for the first stored vertex within `epsilon_sq`, else append the vertex. -/
def VertexMerger.getOrInsert (m : VertexMerger) (v : Vec) : Nat × VertexMerger :=
  let ix := ⌊v.x / m.epsilon⌋
  let iy := ⌊v.y / m.epsilon⌋
  let iz := ⌊v.z / m.epsilon⌋
  let dxyz : List (Int × Int × Int) :=
    [-1, 0, 1].flatMap fun dx =>
      [-1, 0, 1].flatMap fun dy => [-1, 0, 1].map fun dz => (dx, dy, dz)
  let found := dxyz.findSome? fun d =>
    match gridGet m.grid (ix + d.1, iy + d.2.1, iz + d.2.2) with
    | none => none
    | some indices =>
        indices.find? fun idx =>
          decide (v.distanceSquared (m.vertices.getD idx ⟨0, 0, 0⟩) < m.epsilonSq)
  match found with
  | some idx => (idx, m)
  | none =>
      (m.vertices.length,
       { m with
          vertices := m.vertices ++ [v],
          grid := gridPush m.grid (ix, iy, iz) m.vertices.length })

/-- `IndexTriangle` from src/src/mesh.rs lines 161-166. -/
structure IndexTriangle where
  v1 : Nat
  v2 : Nat
  v3 : Nat
deriving DecidableEq, Repr

/-- `IndexTriangle::paths` from src/src/mesh.rs lines 169-176: the three
undirected edges with each pair ordered ascending (`vs.sort()` on three
naturals, written here as min / median-by-sum / max). -/
def IndexTriangle.edgePaths (it : IndexTriangle) : List (Nat × Nat) :=
  let a := min it.v1 (min it.v2 it.v3)
  let c := max it.v1 (max it.v2 it.v3)
  let b := it.v1 + it.v2 + it.v3 - a - c
  [(a, b), (b, c), (a, c)]

/-- `IndexTriangle::normalized_normal` from src/src/mesh.rs lines 178-191:
normalize the cross product and flip it into the canonical hemisphere. -/
def IndexTriangle.normalizedNormal (sq : ℚ → ℚ) (vertices : List Vec)
    (it : IndexTriangle) : Vec :=
  let v1 := vertices.getD it.v1 ⟨0, 0, 0⟩
  let v2 := vertices.getD it.v2 ⟨0, 0, 0⟩
  let v3 := vertices.getD it.v3 ⟨0, 0, 0⟩
  let normal := ((v2.sub v1).cross (v3.sub v1)).normalizeWith sq
  if normal.x < 0 ∨ (normal.x = 0 ∧ normal.y < 0) ∨
      (normal.x = 0 ∧ normal.y = 0 ∧ normal.z < 0) then
    normal.mulScalar (-1)
  else normal

/-- `Mesh` from src/src/mesh.rs lines 16-21 (cached `bx` omitted; no claim
reads it). -/
structure Mesh where
  vertices : List Vec
  index_triangles : List IndexTriangle
  tree : Option TreeQ
deriving DecidableEq, Repr

/-- `Mesh::new` from src/src/mesh.rs lines 24-40: vertex-merge the triangles
with `ε = 1e-6` and store index triples. -/
def meshNew (triangles : List Triangle) : Mesh :=
  let start : List IndexTriangle × VertexMerger := ([], VertexMerger.new (1/1000000))
  let built := triangles.foldl
    (fun acc t =>
      let r1 := acc.2.getOrInsert t.v1
      let r2 := r1.2.getOrInsert t.v2
      let r3 := r2.2.getOrInsert t.v3
      (acc.1 ++ [⟨r1.1, r2.1, r3.1⟩], r3.2))
    start
  ⟨built.2.vertices, built.1, none⟩

/-- `Mesh::triangles` from src/src/mesh.rs lines 42-50. -/
def meshTriangles (m : Mesh) : List Triangle :=
  m.index_triangles.map fun itr =>
    ⟨m.vertices.getD itr.v1 ⟨0, 0, 0⟩,
     m.vertices.getD itr.v2 ⟨0, 0, 0⟩,
     m.vertices.getD itr.v3 ⟨0, 0, 0⟩⟩

/-- `Mesh::compile` from src/src/mesh.rs lines 114-123: build the BVH once. -/
def meshCompile (m : Mesh) : Mesh :=
  if m.tree.isNone then { m with tree := some (TreeQ.new (meshTriangles m)) }
  else m

/-- `Mesh::intersect` from src/src/mesh.rs lines 133-137. -/
def meshIntersect (m : Mesh) (r : Ray) : Hit :=
  match m.tree with
  | none => none
  | some tree => tree.intersect r

/-- One `counter` bump: `counter.entry(key).and_modify(|i| *i += 1).or_insert(1)`
(src/src/mesh.rs lines 144-149), on the association-list model. -/
def bumpCounter (counter : List (((Nat × Nat) × Nat) × Nat))
    (key : (Nat × Nat) × Nat) : List (((Nat × Nat) × Nat) × Nat) :=
  if counter.any (fun e => decide (e.1 = key)) then
    counter.map (fun e => if e.1 = key then (e.1, e.2 + 1) else e)
  else counter ++ [(key, 1)]

/-- The `for_each` fold of `Mesh::paths` (src/src/mesh.rs lines 142-150):
thread the normal merger and the `(edge, normal)` counter over the index
triangles. -/
def meshPathsFold (sq : ℚ → ℚ) (vertices : List Vec) :
    List IndexTriangle → VertexMerger × List (((Nat × Nat) × Nat) × Nat) →
      VertexMerger × List (((Nat × Nat) × Nat) × Nat)
  | [], acc => acc
  | it :: rest, acc =>
    let r := acc.1.getOrInsert (it.normalizedNormal sq vertices)
    let counter := it.edgePaths.foldl (fun ctr path => bumpCounter ctr (path, r.1)) acc.2
    meshPathsFold sq vertices rest (r.2, counter)

/-- `Mesh::paths` from src/src/mesh.rs lines 139-158: count `(edge, normal)`
pairs, keep those seen exactly once, and emit the vertex segment of each.
(The Rust `HashMap` iteration order is arbitrary; the association list emits
in first-insertion order — one fixed representative of that order.) -/
def meshPaths (sq : ℚ → ℚ) (m : Mesh) : List Path :=
  let fold := meshPathsFold sq m.vertices m.index_triangles
    (VertexMerger.new (1/1000000), [])
  (fold.2.filter (fun e => e.2 = 1)).map
    (fun e => [m.vertices.getD e.1.1.1 ⟨0, 0, 0⟩, m.vertices.getD e.1.1.2 ⟨0, 0, 0⟩])

/-- **C9**: a `Mesh` whose BVH slot is still empty reports `NoHit` from
`intersect` instead of building the tree or failing; after `compile()` the
intersection delegates to the tree built from the mesh triangles; and
`compile()` is idempotent. -/
theorem mesh_intersect_lazy_compile (m : Mesh) (r : Ray) :
    (m.tree = none → meshIntersect m r = none) ∧
    (m.tree = none →
      meshIntersect (meshCompile m) r =
        TreeQ.intersect (TreeQ.new (meshTriangles m)) r) ∧
    meshCompile (meshCompile m) = meshCompile m := by
  refine ⟨fun h => by simp [meshIntersect, h], fun h => ?_, ?_⟩
  · simp [meshCompile, meshIntersect, h]
  · cases htree : m.tree <;> simp [meshCompile, htree]

/-- Witness for C9 on the empty mesh. -/
theorem mesh_intersect_lazy_compile_witness :
    meshIntersect (meshNew []) ⟨⟨0, 0, 0⟩, ⟨1, 0, 0⟩⟩ = none ∧
    meshCompile (meshCompile (meshNew [])) = meshCompile (meshNew []) := by
  exact ⟨(mesh_intersect_lazy_compile (meshNew []) ⟨⟨0, 0, 0⟩, ⟨1, 0, 0⟩⟩).1 rfl,
    (mesh_intersect_lazy_compile (meshNew []) ⟨⟨0, 0, 0⟩, ⟨1, 0, 0⟩⟩).2.2⟩

/-! ## Sphere paths and the seeded RNG (C5) -/

/-- Modelled from the spec §5: the deterministic 64-bit PRNG behind
`SmallRng::seed_from_u64` — a linear-congruential step on `Nat mod 2⁶⁴` stands
in for the actual generator; every claim below holds for any deterministic
generator. -/
def rngNext (state : Nat) : Nat × Nat :=
  let s := (state * 6364136223846793005 + 1442695040888963407) % (2 ^ 64)
  (s, s)

/-- Modelled from the spec: `Vector::random_unit_vector(rng)` (vector.rs is
not under src/) — a vector drawn deterministically from the generator state;
the distribution plays no role in any claim. -/
def randomUnitVector (state : Nat) : Vec × Nat :=
  let r1 := rngNext state
  let r2 := rngNext r1.2
  let r3 := rngNext r2.2
  (⟨((r1.1 % 2001 : Nat) : ℚ) / 1000 - 1,
    ((r2.1 % 2001 : Nat) : ℚ) / 1000 - 1,
    ((r3.1 % 2001 : Nat) : ℚ) / 1000 - 1⟩, r3.2)

/-- Modelled from the spec: `rng.random::<f64>()`, a deterministic value in
`[0, 1]`. -/
def randomFloat (state : Nat) : ℚ × Nat :=
  let r := rngNext state
  (((r.1 % 1000001 : Nat) : ℚ) / 1000000, r.2)

/-- Modelled from the spec: `rng.random_range(1..=4)`. -/
def randomRange1to4 (state : Nat) : Nat × Nat :=
  let r := rngNext state
  (1 + r.1 % 4, r.2)

/-- The repeated polyline construction of src/src/sphere.rs (lines 161-172,
189-199, 220-232, 300-313 and 419-437): subdivide the arc, expand the radii,
and map each angle to a point of the circle plane `(c, u, v)`. -/
def arcPolyline (ops : GeomOps) (alpha beta r : ℚ) (cuv : Vec × Vec × Vec)
    (screenMat : MatrixQ) (stepSq : ℚ) : Path :=
  let path := ops.arcSubdivide alpha beta r cuv screenMat stepSq
  let expanded := radius_expansion ops.cos path r
  path.enum.map (fun ib =>
    let maxr := max (expanded.getD ib.1 0) (expanded.getD (ib.1 + 1) 0)
    (cuv.1.add (cuv.2.1.mulScalar (ops.cos ib.2 * maxr))).add
      (cuv.2.2.mulScalar (ops.sin ib.2 * maxr)))

/-- `Sphere::paths_lat_lng` from src/src/sphere.rs lines 145-206: latitude
circles from `−90+o` to `90−o` in steps of `n`, then longitude arcs every `n`
degrees.  The Rust `while` loops never terminate for `n ≤ 0`, modelled as
`none`; `Sphere::paths` only calls this with `n = o = 10`. -/
def spherePathsLatLng (ops : GeomOps) (s : Sphere) (screenMat : MatrixQ)
    (step : ℚ) (n o : Int) : Option (List Path) :=
  if n ≤ 0 then none
  else
    let stepSq := step ^ 2
    let latCount : Nat :=
      if -90 + o > 90 - o then 0 else (((90 - o) - (-90 + o)) / n).toNat + 1
    let lats := (List.range latCount).map (fun k => -90 + o + k * n)
    let latPaths := lats.map (fun lat =>
      let latr := radiansQ ops.pi (lat : ℚ)
      let c : Vec := ⟨s.center.x, s.center.y, s.center.z + s.radius * ops.sin latr⟩
      let r := s.radius * ops.cos latr
      arcPolyline ops 0 (ops.pi * 2) r (c, ⟨1, 0, 0⟩, ⟨0, 1, 0⟩) screenMat stepSq)
    let lngCount : Nat := ((360 + n - 1) / n).toNat
    let lngs := (List.range lngCount).map (fun k => (k : Int) * n)
    let lngPaths := lngs.map (fun lng =>
      let lngr := radiansQ ops.pi (lng : ℚ)
      let v : Vec := ⟨ops.cos lngr, ops.sin lngr, 0⟩
      let alpha := radiansQ ops.pi (o : ℚ)
      let beta := radiansQ ops.pi ((180 - o : Int) : ℚ)
      arcPolyline ops alpha beta s.radius (s.center, ⟨0, 0, 1⟩, v) screenMat stepSq)
    some (latPaths ++ lngPaths)

/-- `Sphere::paths_random_equators` from src/src/sphere.rs lines 209-236. -/
def spherePathsRandomEquators (ops : GeomOps) (s : Sphere) (screenMat : MatrixQ)
    (step : ℚ) (n : Nat) (seed : Nat) : List Path :=
  let stepSq := step ^ 2
  ((List.range n).foldl
    (fun (acc : List Path × Nat) _ =>
      let ru := randomUnitVector acc.2
      let rw := randomUnitVector ru.2
      let v := (rw.1.cross ru.1).normalizeWith ops.sqrt
      (acc.1 ++ [arcPolyline ops 0 (ops.pi * 2) s.radius (s.center, ru.1, v)
        screenMat stepSq], rw.2))
    ([], seed % 2 ^ 64)).1

/-- `Sphere::paths_random_fuzz` from src/src/sphere.rs lines 239-252: `num`
outward stubs from `center + r·v` to `center + r·scale·v`. -/
def spherePathsRandomFuzz (s : Sphere) (num : Nat) (scale : ℚ) (seed : Nat) :
    List Path :=
  ((List.range num).foldl
    (fun (acc : List Path × Nat) _ =>
      let rv := randomUnitVector acc.2
      (acc.1 ++ [[(rv.1.mulScalar s.radius).add s.center,
        (rv.1.mulScalar (s.radius * scale)).add s.center]], rv.2))
    ([], seed % 2 ^ 64)).1

/-- The unbounded rejection loop of `Sphere::paths_random_circles`
(src/src/sphere.rs lines 267-284), with explicit fuel: retry until the drawn
spot clears every previously accepted circle by `m + rᵢ + 0.02`.  The Rust
loop has no fuel and can in principle spin forever (see C10). -/
def circlesPickSpot (ops : GeomOps) : Nat → Nat → List Vec → List ℚ →
    Option (Vec × ℚ × Nat)
  | 0, _, _, _ => none
  | fuel + 1, state, seen, radii =>
    let rv := randomUnitVector state
    let rm := randomFloat rv.2
    let m := rm.1 * (1/4) + 1/20
    let ok := (seen.zip radii).all (fun pr =>
      decide (¬((pr.1.sub rv.1).lengthWith ops.sqrt < m + pr.2 + 1/50)))
    if ok then some (rv.1, m, rm.2)
    else circlesPickSpot ops fuel rm.2 seen radii

/-- `Sphere::paths_random_circles` from src/src/sphere.rs lines 255-319,
with fuel for the inner rejection loop (`none` when the fuel runs out, where
the Rust code would still be looping). -/
def spherePathsRandomCircles (ops : GeomOps) (s : Sphere) (screenMat : MatrixQ)
    (step : ℚ) (num seed fuel : Nat) : Option (List Path) :=
  let stepSq := step ^ 2
  ((List.range num).foldl
    (fun (acc : Option (List Path × List Vec × List ℚ × Nat)) _ =>
      match acc with
      | none => none
      | some (paths, seen, radii, state) =>
        match circlesPickSpot ops fuel state seen radii with
        | none => none
        | some (v, m, st2) =>
          let seen2 := seen ++ [v]
          let radii2 := radii ++ [m]
          let rp := randomUnitVector st2
          let p := (v.cross rp.1).normalizeWith ops.sqrt
          let q := (p.cross v).normalizeWith ops.sqrt
          let rn := randomRange1to4 rp.2
          let inner := (List.range rn.1).foldl
            (fun (st : List Path × ℚ) _ =>
              let norm := ops.sqrt (v.lengthSquared + st.2 ^ 2)
              let r := st.2 * s.radius / norm
              let c := (v.mulScalar (s.radius / norm)).add s.center
              (st.1 ++ [arcPolyline ops 0 (ops.pi * 2) r (c, p, q) screenMat stepSq],
               st.2 * (3/4)))
            (paths, m)
          some (inner.1, seen2, radii2, rn.2))
    (some ([], [], [], seed % 2 ^ 64))).map (fun st => st.1)

/-- `Sphere::paths` from src/src/sphere.rs lines 129-140: texture dispatch
with the call-site constants `(10, 10)`, `100`, `(1000, 1.1)` and `140`. -/
def spherePaths (ops : GeomOps) (s : Sphere) (args : RenderArgsQ) (fuel : Nat) :
    Option (List Path) :=
  match s.texture with
  | SphereTextureQ.latLng => spherePathsLatLng ops s args.screenMat args.step 10 10
  | SphereTextureQ.randomEquators seed =>
      some (spherePathsRandomEquators ops s args.screenMat args.step 100 seed)
  | SphereTextureQ.randomFuzz seed =>
      some (spherePathsRandomFuzz s 1000 (11/10) seed)
  | SphereTextureQ.randomCircles seed =>
      spherePathsRandomCircles ops s args.screenMat args.step 140 seed fuel

/-- **C5**: `Sphere::paths` is a pure function of the sphere (center, radius,
texture — in particular the texture's seed) and the render arguments: the
seeded generator is deterministic, so equal inputs give identical `Paths`, for
every interpretation of the abstract real operations and any fuel.  The
`RandomFuzz` generator moreover depends only on center, radius and the
numeric parameters, not on the texture value itself. -/
theorem sphere_paths_deterministic (ops : GeomOps) (fuel : Nat)
    (s1 s2 : Sphere) (a1 a2 : RenderArgsQ) (hs : s1 = s2) (ha : a1 = a2) :
    spherePaths ops s1 a1 fuel = spherePaths ops s2 a2 fuel ∧
    (∀ num scale seed, s1.center = s2.center → s1.radius = s2.radius →
      spherePathsRandomFuzz s1 num scale seed =
        spherePathsRandomFuzz s2 num scale seed) := by
  subst hs
  subst ha
  exact ⟨rfl, fun _ _ _ _ _ => rfl⟩

/-- Witness for C5: two invocations with seed 42 and the same arguments agree. -/
theorem sphere_paths_deterministic_witness :
    spherePaths cexOps ⟨⟨0, 0, 0⟩, 1, SphereTextureQ.randomFuzz 42⟩
        ⟨⟨4, 3, 2⟩, ⟨0, 0, 1⟩, idMatrixQ, 1/100⟩ 5 =
      spherePaths cexOps ⟨⟨0, 0, 0⟩, 1, SphereTextureQ.randomFuzz 42⟩
        ⟨⟨4, 3, 2⟩, ⟨0, 0, 1⟩, idMatrixQ, 1/100⟩ 5 :=
  (sphere_paths_deterministic cexOps 5 _ _ _ _ rfl rfl).1

/-- The key type of the `(edge, normal)` counter. -/
abbrev EdgeKey := (Nat × Nat) × Nat

/-- First-occurrence deduplication, the insertion order of the association
list counter. -/
def dedupKeys (l : List EdgeKey) : List EdgeKey :=
  l.foldl (fun acc k => if k ∈ acc then acc else acc ++ [k]) []

theorem dedupKeys_append_singleton (l : List EdgeKey) (k : EdgeKey) :
    dedupKeys (l ++ [k]) =
      if k ∈ dedupKeys l then dedupKeys l else dedupKeys l ++ [k] := by
  unfold dedupKeys
  rw [List.foldl_append]
  rfl

theorem mem_dedupKeys (l : List EdgeKey) (k : EdgeKey) :
    k ∈ dedupKeys l ↔ k ∈ l := by
  induction l using List.reverseRecOn with
  | nil => simp [dedupKeys]
  | append_singleton l a ih =>
    rw [dedupKeys_append_singleton]
    by_cases h : a ∈ dedupKeys l
    · rw [if_pos h]
      simp only [List.mem_append, List.mem_singleton, ih]
      constructor
      · exact fun hk => Or.inl hk
      · rintro (hk | rfl)
        · exact hk
        · exact ih.mp h
    · rw [if_neg h]
      simp [ih]

theorem nodup_dedupKeys (l : List EdgeKey) : (dedupKeys l).Nodup := by
  induction l using List.reverseRecOn with
  | nil => simp [dedupKeys]
  | append_singleton l a ih =>
    rw [dedupKeys_append_singleton]
    by_cases h : a ∈ dedupKeys l
    · rw [if_pos h]
      exact ih
    · rw [if_neg h]
      refine List.Nodup.append ih (List.nodup_singleton a) ?_
      intro b hb hb2
      rw [List.mem_singleton] at hb2
      subst hb2
      exact h hb

theorem countFold_eq (l : List EdgeKey) :
    l.foldl bumpCounter [] = (dedupKeys l).map (fun k => (k, l.count k)) := by
  induction l using List.reverseRecOn with
  | nil => rfl
  | append_singleton l k ih =>
    rw [List.foldl_append, List.foldl_cons, List.foldl_nil, ih,
      dedupKeys_append_singleton]
    unfold bumpCounter
    have hany : ((dedupKeys l).map (fun k2 => (k2, l.count k2))).any
        (fun e => decide (e.1 = k)) = decide (k ∈ dedupKeys l) := by
      by_cases h : k ∈ dedupKeys l
      · rw [decide_eq_true h, List.any_eq_true]
        exact ⟨(k, l.count k), List.mem_map.mpr ⟨k, h, rfl⟩, by simp⟩
      · rw [decide_eq_false h, List.any_eq_false]
        intro e he
        obtain ⟨k2, hk2, rfl⟩ := List.mem_map.mp he
        simp only [decide_eq_true_eq]
        intro hcon
        exact h (hcon ▸ hk2)
    rw [hany]
    by_cases h : k ∈ dedupKeys l
    · rw [if_pos (by simp [h]), if_pos h, List.map_map]
      apply List.map_congr_left
      intro k2 _
      by_cases h2 : k2 = k
      · subst h2
        simp [List.count_append]
      · simp only [Function.comp_apply, h2, if_false, List.count_append]
        have : [k].count k2 = 0 := by
          simp [List.count_singleton]
          intro hcon
          exact absurd hcon.symm h2
        rw [this, Nat.add_zero]
    · rw [if_neg (by simp [h]), if_neg h, List.map_append]
      congr 1
      · apply List.map_congr_left
        intro k2 hk2
        have h2 : k2 ≠ k := fun hcon => h (hcon ▸ hk2)
        have : [k].count k2 = 0 := by
          simp [List.count_singleton]
          intro hcon
          exact absurd hcon.symm h2
        simp [List.count_append, this]
      · have hk0 : l.count k = 0 :=
          List.count_eq_zero.mpr (fun hmem => h ((mem_dedupKeys l k).mpr hmem))
        simp [List.count_append, hk0]

/-- The stream of `(edge, merged-normal-class)` events that `Mesh::paths`
feeds into the counter, with the normal merger threaded through the
triangles in order. -/
def classStream (sq : ℚ → ℚ) (vertices : List Vec) :
    List IndexTriangle → VertexMerger → List EdgeKey
  | [], _ => []
  | it :: rest, merger =>
    let r := merger.getOrInsert (it.normalizedNormal sq vertices)
    it.edgePaths.map (fun e => (e, r.1)) ++ classStream sq vertices rest r.2

/-- The event stream of a mesh, starting from the fresh `1e-6` merger exactly
as `Mesh::paths` does. -/
def meshEdgeEvents (sq : ℚ → ℚ) (m : Mesh) : List EdgeKey :=
  classStream sq m.vertices m.index_triangles (VertexMerger.new (1/1000000))

theorem meshPathsFold_counter (sq : ℚ → ℚ) (vertices : List Vec)
    (its : List IndexTriangle) :
    ∀ (merger : VertexMerger) (counter : List (EdgeKey × Nat)),
      (meshPathsFold sq vertices its (merger, counter)).2 =
        (classStream sq vertices its merger).foldl bumpCounter counter := by
  induction its with
  | nil => intro merger counter; rfl
  | cons it rest ih =>
    intro merger counter
    show (meshPathsFold sq vertices rest
        ((merger.getOrInsert (it.normalizedNormal sq vertices)).2,
         it.edgePaths.foldl
           (fun ctr path => bumpCounter ctr
             (path, (merger.getOrInsert (it.normalizedNormal sq vertices)).1))
           counter)).2 = _
    rw [ih]
    show _ = (classStream sq vertices (it :: rest) merger).foldl bumpCounter counter
    rw [classStream]
    rw [List.foldl_append, List.foldl_map]

theorem two_mem_count_map (l : List EdgeKey) (f : EdgeKey → Path) (y : Path)
    (k1 k2 : EdgeKey) (h12 : k1 ≠ k2) (h1 : k1 ∈ l) (h2 : k2 ∈ l)
    (hf1 : f k1 = y) (hf2 : f k2 = y) : 2 ≤ (l.map f).count y := by
  obtain ⟨s, t, rfl⟩ := List.append_of_mem h1
  have h2' : k2 ∈ s ∨ k2 ∈ t := by
    rcases List.mem_append.mp h2 with hs | hct
    · exact Or.inl hs
    · rcases List.mem_cons.mp hct with hk | ht
      · exact absurd hk.symm h12
      · exact Or.inr ht
  rw [List.map_append, List.map_cons, List.count_append, List.count_cons]
  have hone : (if f k1 == y then 1 else 0) = 1 := by simp [hf1]
  rcases h2' with hs | ht
  · have : 0 < (s.map f).count y :=
      List.count_pos_iff.mpr (List.mem_map.mpr ⟨k2, hs, hf2⟩)
    omega
  · have : 0 < (t.map f).count y :=
      List.count_pos_iff.mpr (List.mem_map.mpr ⟨k2, ht, hf2⟩)
    omega

/-- **C2 (amended)**: the segments `Mesh::paths` emits are exactly one copy of
the edge of each `(edge, merged-normal-class)` pair that occurs exactly once
over all incident triangles, in first-occurrence order.  In particular an edge
whose single incident triangle gives its only event (a boundary edge) is
emitted, but an edge shared by faces of two different normal classes — every
edge of a closed convex mesh such as a tetrahedron — is emitted once per such
class, i.e. at least twice, so edges can appear more than once in the
output. -/
theorem mesh_paths_edge_normal_multiplicity (sq : ℚ → ℚ) (m : Mesh) :
    meshPaths sq m =
      ((dedupKeys (meshEdgeEvents sq m)).filter
          (fun k => decide ((meshEdgeEvents sq m).count k = 1))).map
        (fun k => [m.vertices.getD k.1.1 ⟨0, 0, 0⟩,
                   m.vertices.getD k.1.2 ⟨0, 0, 0⟩]) ∧
    (∀ e : Nat × Nat, ∀ n : Nat, (meshEdgeEvents sq m).count (e, n) = 1 →
      [m.vertices.getD e.1 ⟨0, 0, 0⟩, m.vertices.getD e.2 ⟨0, 0, 0⟩]
        ∈ meshPaths sq m) ∧
    (∀ e : Nat × Nat, ∀ n1 n2 : Nat, n1 ≠ n2 →
      (meshEdgeEvents sq m).count (e, n1) = 1 →
      (meshEdgeEvents sq m).count (e, n2) = 1 →
      2 ≤ (meshPaths sq m).count
        [m.vertices.getD e.1 ⟨0, 0, 0⟩, m.vertices.getD e.2 ⟨0, 0, 0⟩]) := by
  have hmain : meshPaths sq m =
      ((dedupKeys (meshEdgeEvents sq m)).filter
          (fun k => decide ((meshEdgeEvents sq m).count k = 1))).map
        (fun k => [m.vertices.getD k.1.1 ⟨0, 0, 0⟩,
                   m.vertices.getD k.1.2 ⟨0, 0, 0⟩]) := by
    simp only [meshPaths]
    rw [meshPathsFold_counter]
    show (((meshEdgeEvents sq m).foldl bumpCounter []).filter
        (fun e => decide (e.2 = 1))).map _ = _
    rw [countFold_eq, List.filter_map, List.map_map]
    exact rfl
  refine ⟨hmain, ?_, ?_⟩
  · intro e n hcount
    rw [hmain]
    apply List.mem_map.mpr
    refine ⟨(e, n), List.mem_filter.mpr ⟨?_, by simp [hcount]⟩, rfl⟩
    exact (mem_dedupKeys _ _).mpr
      (List.count_pos_iff.mp (by omega))
  · intro e n1 n2 hne h1 h2
    rw [hmain]
    refine two_mem_count_map _ _ _ (e, n1) (e, n2)
      (by simp [hne]) ?_ ?_ rfl rfl
    · exact List.mem_filter.mpr
        ⟨(mem_dedupKeys _ _).mpr (List.count_pos_iff.mp (by omega)), by simp [h1]⟩
    · exact List.mem_filter.mpr
        ⟨(mem_dedupKeys _ _).mpr (List.count_pos_iff.mp (by omega)), by simp [h2]⟩

/-- The square-root table for the concrete meshes below: the only length ever
normalized is 1 (all face normals of the test triangles are unit axis
vectors). -/
def sqTable : ℚ → ℚ := fun q => if q = 1 then 1 else 0

/-- The mesh `Mesh::new` builds from the two axis-plane triangles
`((0,0,0),(1,0,0),(0,0,1))` (in the plane `y = 0`) and
`((0,0,0),(1,0,0),(0,1,0))` (in the plane `z = 0`): four merged vertices and
two index triangles sharing the edge `(0,1)`. -/
def twoTriMesh : Mesh :=
  ⟨[⟨0, 0, 0⟩, ⟨1, 0, 0⟩, ⟨0, 0, 1⟩, ⟨0, 1, 0⟩],
   [⟨0, 1, 2⟩, ⟨0, 1, 3⟩], none⟩

/-- **C2, counterexample**: on the two-triangle mesh the shared edge lies
between faces whose canonical normals differ (`(0,1,0)` versus `(0,0,1)`), and
`Mesh::paths` emits its segment twice — the claim that no edge appears more
than once in the output is false. -/
theorem mesh_paths_duplicate_edge :
    (meshPaths sqTable twoTriMesh).count [⟨0, 0, 0⟩, ⟨1, 0, 0⟩] = 2 := by
  norm_num [meshPaths, meshPathsFold, VertexMerger.getOrInsert, VertexMerger.new,
    gridGet, gridPush, IndexTriangle.normalizedNormal, IndexTriangle.edgePaths,
    bumpCounter, Vec.cross, Vec.sub, Vec.normalizeWith, Vec.mulScalar,
    Vec.lengthSquared, Vec.dot, Vec.distanceSquared, sqTable, twoTriMesh,
    List.findSome?, List.count, List.filter, List.getD]

/-- Witness for the amended C2 theorem on the two-triangle mesh: the shared
edge `(0,1)` has two singly-occurring normal classes, so its segment is
emitted at least twice. -/
theorem mesh_paths_edge_normal_multiplicity_witness :
    2 ≤ (meshPaths sqTable twoTriMesh).count [⟨0, 0, 0⟩, ⟨1, 0, 0⟩] := by
  have h := (mesh_paths_edge_normal_multiplicity sqTable twoTriMesh).2.2 (0, 1) 0 1
    (by norm_num)
    (by norm_num [meshEdgeEvents, classStream, VertexMerger.getOrInsert,
      VertexMerger.new, gridGet, gridPush, IndexTriangle.normalizedNormal,
      IndexTriangle.edgePaths, Vec.cross, Vec.sub, Vec.normalizeWith,
      Vec.mulScalar, Vec.lengthSquared, Vec.dot, Vec.distanceSquared, sqTable,
      twoTriMesh, List.findSome?, List.count, List.getD])
    (by norm_num [meshEdgeEvents, classStream, VertexMerger.getOrInsert,
      VertexMerger.new, gridGet, gridPush, IndexTriangle.normalizedNormal,
      IndexTriangle.edgePaths, Vec.cross, Vec.sub, Vec.normalizeWith,
      Vec.mulScalar, Vec.lengthSquared, Vec.dot, Vec.distanceSquared, sqTable,
      twoTriMesh, List.findSome?, List.count, List.getD])
  exact h
